import Mathlib

/-!
# GridDensityMedium: a verification development

Shallow embedding of `src/FunctionLayer/Medium/GridDensityMedium.cpp`.

Modelling conventions
* `float` values are rationals (`ℚ`). The definitions named as in the source (`triLearp`,
  `Density`, `TrLoop`, `Tr`, ...) compute in exact arithmetic; their counterparts with the suffix
  `R` (`triLearpR`, `DensityR`, `TrLoopR`, `TrR`, ...) round after every arithmetic operation, and
  with `F32.round` they are the binary32 computation of the source. Infinities and NaN are
  outside the model.
* `int` values are mathematical integers (`ℤ`); overflow is outside the model.
* `while (true)` loops carry a fuel argument and return `Option`; `none` means the fuel ran out
  before the loop reached a `break`.
* The sampler is a stream `ℕ → ℚ` together with the index of the next value to be drawn.
* `fm::log`, `EPSILON` and the default-constructed values of `Point3f` and `Vector3f` live in
  headers that are not part of the sources at hand; they are parameters of the definitions.
-/

namespace GridDensity

/-! ## Geometry -/

/-- A `Point3f`: three coordinates. -/
structure Point3f where
  x : ℚ
  y : ℚ
  z : ℚ
deriving DecidableEq, Repr

/-- A `Vector3f`: three coordinates. -/
structure Vector3f where
  x : ℚ
  y : ℚ
  z : ℚ
deriving DecidableEq, Repr

/-- The sum `Point3f + Vector3f`. -/
def Point3f.addVec (p : Point3f) (v : Vector3f) : Point3f :=
  ⟨p.x + v.x, p.y + v.y, p.z + v.z⟩

/-- The products `t * v` and `v * t` of a `Vector3f` and a scalar. -/
def Vector3f.scale (t : ℚ) (v : Vector3f) : Vector3f :=
  ⟨t * v.x, t * v.y, t * v.z⟩

/-- A `vecmat::vec4f`. -/
structure Vec4f where
  x : ℚ
  y : ℚ
  z : ℚ
  w : ℚ
deriving DecidableEq, Repr

/-- A `vecmat::mat4f`, stored by rows. -/
structure Mat4f where
  r0 : Vec4f
  r1 : Vec4f
  r2 : Vec4f
  r3 : Vec4f
deriving DecidableEq, Repr

/-- Dot product of two 4-vectors. -/
def Vec4f.dot (a b : Vec4f) : ℚ :=
  a.x * b.x + a.y * b.y + a.z * b.z + a.w * b.w

/-- Matrix times column vector. -/
def Mat4f.mulVec (m : Mat4f) (v : Vec4f) : Vec4f :=
  ⟨m.r0.dot v, m.r1.dot v, m.r2.dot v, m.r3.dot v⟩

/-- Column `j` of a matrix. -/
def Mat4f.col (m : Mat4f) (j : Fin 4) : Vec4f :=
  match j with
  | 0 => ⟨m.r0.x, m.r1.x, m.r2.x, m.r3.x⟩
  | 1 => ⟨m.r0.y, m.r1.y, m.r2.y, m.r3.y⟩
  | 2 => ⟨m.r0.z, m.r1.z, m.r2.z, m.r3.z⟩
  | 3 => ⟨m.r0.w, m.r1.w, m.r2.w, m.r3.w⟩

/-- Row of a matrix product: `r * b`. -/
def Mat4f.rowMul (r : Vec4f) (b : Mat4f) : Vec4f :=
  ⟨r.dot (b.col 0), r.dot (b.col 1), r.dot (b.col 2), r.dot (b.col 3)⟩

/-- Matrix times matrix. -/
def Mat4f.mul (a b : Mat4f) : Mat4f :=
  ⟨Mat4f.rowMul a.r0 b, Mat4f.rowMul a.r1 b, Mat4f.rowMul a.r2 b, Mat4f.rowMul a.r3 b⟩

/-- The identity matrix. -/
def Mat4f.one : Mat4f :=
  ⟨⟨1, 0, 0, 0⟩, ⟨0, 1, 0, 0⟩, ⟨0, 0, 1, 0⟩, ⟨0, 0, 0, 1⟩⟩

/-- The fields of `Transform` read by `toLocalOriginDir`. -/
structure Transform where
  invTranslate : Mat4f
  invRotate : Mat4f
  invScale : Mat4f
deriving DecidableEq, Repr

/-- The transform whose three inverse matrices are the identity. -/
def Transform.identity : Transform :=
  ⟨Mat4f.one, Mat4f.one, Mat4f.one⟩

/-! ## Spectrum, ray, medium -/

/-- Number of spectral channels (`Spectrum::cntChannel()`). -/
abbrev cntChannel : ℕ := 3

/-- A `Spectrum`: one value per channel. -/
abbrev Spectrum : Type := Fin cntChannel → ℚ

/-- The constructor `Spectrum(v)`: every channel equal to `v`. -/
def Spectrum.const (v : ℚ) : Spectrum := fun _ => v

/-- The quotient `s / d`: every channel divided by the scalar `d`. -/
def Spectrum.divScalar (s : Spectrum) (d : ℚ) : Spectrum := fun c => s c / d

/-- A `Ray`: the members read by `sample_forward`. -/
structure Ray where
  origin : Point3f
  direction : Vector3f
  tNear : ℚ
  tFar : ℚ
deriving DecidableEq, Repr

/-- The member `ray.at(t)`: the point at parameter `t`. -/
def Ray.pointAt (r : Ray) (t : ℚ) : Point3f :=
  r.origin.addVec (Vector3f.scale t r.direction)

/-- A `MediumIntersection`: the members written by `sample_forward`. -/
structure MediumIntersection where
  weight : Spectrum
  t : ℚ
  position : Point3f

/-- The data members of `GridDensityMedium` (the phase function apart). -/
structure GridDensityMedium where
  nx : ℤ
  ny : ℤ
  nz : ℤ
  nynz : ℤ
  density : List ℚ
  invMaxDensity : ℚ
  sigma_a : Spectrum
  sigma_s : Spectrum
  sigma_t : ℚ
  transform : Transform

/-- Modelled from the spec: `GridDensityMedium::queryDensity`, declared in the header
`GridDensityMedium.h`, which is not among the sources. The spec describes it as a bounds-checked
flat lookup with index `x·ny·nz + y·nz + z`, where indices outside `[0,nx)×[0,ny)×[0,nz)` give 0. -/
def queryDensity (m : GridDensityMedium) (x y z : ℤ) : ℚ :=
  if 0 ≤ x ∧ x < m.nx ∧ 0 ≤ y ∧ y < m.ny ∧ 0 ≤ z ∧ z < m.nz then
    m.density.getD (x * m.nynz + y * m.nz + z).toNat 0
  else 0

/-- The member function `GridDensityMedium::triLearp`. -/
def triLearp (m : GridDensityMedium) (pGrid : Point3f) : ℚ :=
  let fx : ℤ := ⌊pGrid.x⌋
  let fy : ℤ := ⌊pGrid.y⌋
  let fz : ℤ := ⌊pGrid.z⌋
  let cx := fx + 1
  let cy := fy + 1
  let cz := fz + 1
  let dx : ℚ := pGrid.x - fx
  let dy : ℚ := pGrid.y - fy
  let dz : ℚ := pGrid.z - fz
  let y0z0 := dx * queryDensity m cx fy fz + (1 - dx) * queryDensity m fx fy fz
  let y0z1 := dx * queryDensity m cx fy cz + (1 - dx) * queryDensity m fx fy cz
  let y1z0 := dx * queryDensity m cx cy fz + (1 - dx) * queryDensity m fx cy fz
  let y1z1 := dx * queryDensity m cx cy cz + (1 - dx) * queryDensity m fx cy cz
  let z0 := dy * y1z0 + (1 - dy) * y0z0
  let z1 := dy * y1z1 + (1 - dy) * y0z1
  let val := dz * z1 + (1 - dz) * z0
  val

/-- The function `toLocalOriginDir`; the two output references are returned as a pair. -/
def toLocalOriginDir (oldOrig : Point3f) (oldDir : Vector3f) (transform : Transform) :
    Point3f × Vector3f :=
  let hlocalOrigin0 : Vec4f := ⟨oldOrig.x, oldOrig.y, oldOrig.z, 1⟩
  let hlocalOrigin1 : Vec4f :=
    ((transform.invScale.mul transform.invRotate).mul transform.invTranslate).mulVec hlocalOrigin0
  let hlocalOrigin : Vec4f :=
    ⟨hlocalOrigin1.x / hlocalOrigin1.w, hlocalOrigin1.y / hlocalOrigin1.w,
      hlocalOrigin1.z / hlocalOrigin1.w, hlocalOrigin1.w / hlocalOrigin1.w⟩
  let origin0 : Point3f := ⟨hlocalOrigin.x, hlocalOrigin.y, hlocalOrigin.z⟩
  let origin1 : Point3f := origin0.addVec ⟨1, 1, 1⟩
  let origin : Point3f := ⟨origin1.x * (1 / 2), origin1.y * (1 / 2), origin1.z * (1 / 2)⟩
  let hlocalDir0 : Vec4f := ⟨oldDir.x, oldDir.y, oldDir.z, 0⟩
  let hlocalDir : Vec4f := (transform.invScale.mul transform.invRotate).mulVec hlocalDir0
  let dir : Vector3f := ⟨hlocalDir.x, hlocalDir.y, hlocalDir.z⟩
  (origin, dir)

/-- The clamp `std::max(std::min(1 - EPSILON, v), EPSILON)` of one coordinate. -/
def clampCoord (eps v : ℚ) : ℚ :=
  max (min (1 - eps) v) eps

/-- The local `pGrid` of `GridDensityMedium::Density`: the clamped point rescaled by the grid
dimensions; `eps` is the constant `EPSILON`. -/
def Density_pGrid (m : GridDensityMedium) (eps : ℚ) (p : Point3f) : Point3f :=
  let cp : Point3f := ⟨clampCoord eps p.x, clampCoord eps p.y, clampCoord eps p.z⟩
  ⟨cp.x * m.nx, cp.y * m.ny, cp.z * m.nz⟩

/-- The member function `GridDensityMedium::Density`; `eps` is the constant `EPSILON`. -/
def Density (m : GridDensityMedium) (eps : ℚ) (p : Point3f) : ℚ :=
  triLearp m (Density_pGrid m eps p)

/-- The loop of `GridDensityMedium::sample_forward`. `t` is the loop variable, `i` the number of
sampler values drawn so far, `flog` stands for `fm::log`. -/
def sample_forwardLoop (m : GridDensityMedium) (eps : ℚ) (flog : ℚ → ℚ) (ray : Ray)
    (sampler : ℕ → ℚ) (localOrigin : Point3f) (localDir : Vector3f) :
    ℕ → ℚ → ℕ → Option MediumIntersection
  | 0, _, _ => none
  | fuel + 1, t, i =>
    let t1 := t - flog (1 - sampler i) * m.invMaxDensity / m.sigma_t
    if t1 ≥ ray.tFar then
      some { weight := Spectrum.const 1, t := ray.tFar, position := ray.pointAt ray.tFar }
    else if Density m eps (localOrigin.addVec (Vector3f.scale t1 localDir)) * m.invMaxDensity
        > sampler (i + 1) then
      some { weight := m.sigma_s.divScalar m.sigma_t, t := t1, position := ray.pointAt t1 }
    else
      sample_forwardLoop m eps flog ray sampler localOrigin localDir fuel t1 (i + 2)

/-- The member function `GridDensityMedium::sample_forward`. -/
def sample_forward (m : GridDensityMedium) (eps : ℚ) (flog : ℚ → ℚ) (ray : Ray)
    (sampler : ℕ → ℚ) (fuel : ℕ) : Option MediumIntersection :=
  let t := ray.tNear
  let local0 := toLocalOriginDir ray.origin ray.direction m.transform
  sample_forwardLoop m eps flog ray sampler local0.1 local0.2 fuel t 0

/-- The loop of `GridDensityMedium::Tr`, which returns the final value of `tr`. -/
def TrLoop (m : GridDensityMedium) (eps : ℚ) (flog : ℚ → ℚ) (tMax : ℚ)
    (sampler : ℕ → ℚ) (localOrigin : Point3f) (localDir : Vector3f) :
    ℕ → ℚ → ℚ → ℕ → Option ℚ
  | 0, _, _, _ => none
  | fuel + 1, tr, t, i =>
    let t1 := t - flog (1 - sampler i) * m.invMaxDensity / m.sigma_t
    if t1 ≥ tMax then
      some tr
    else
      let density := Density m eps (localOrigin.addVec (Vector3f.scale t1 localDir))
      let tr1 := tr * (1 - max 0 (density * m.invMaxDensity))
      TrLoop m eps flog tMax sampler localOrigin localDir fuel tr1 t1 (i + 1)

set_option linter.unusedVariables false in
/-- The member function `GridDensityMedium::Tr`. The call in the source is
`toLocalOriginDir(localOrigin, localDir, transform_, localOrigin, localDir)`: the inputs of the
conversion are the freshly declared locals, whose default-constructed values are `initOrigin`
and `initDir`; the parameters `p` and `w` are not read. -/
def Tr (m : GridDensityMedium) (eps : ℚ) (flog : ℚ → ℚ) (initOrigin : Point3f)
    (initDir : Vector3f) (p : Point3f) (w : Vector3f) (tMax : ℚ) (sampler : ℕ → ℚ)
    (fuel : ℕ) : Option Spectrum :=
  let local0 := toLocalOriginDir initOrigin initDir m.transform
  (TrLoop m eps flog tMax sampler local0.1 local0.2 fuel 1 0 0).map Spectrum.const

/-- The transmittance estimate as the specification words it: the ratio-tracking product taken
along the local origin and direction derived from the inputs `p` and `w`. -/
def Tr_spec (m : GridDensityMedium) (eps : ℚ) (flog : ℚ → ℚ) (p : Point3f) (w : Vector3f)
    (tMax : ℚ) (sampler : ℕ → ℚ) (fuel : ℕ) : Option Spectrum :=
  let local0 := toLocalOriginDir p w m.transform
  (TrLoop m eps flog tMax sampler local0.1 local0.2 fuel 1 0 0).map Spectrum.const

/-- The blend of `GridDensityMedium::triLearp` for a given cell `(fx, fy, fz)` and given
fractional weights `(dx, dy, dz)`: lines 66 to 79 of the source, with the floors and the
fractions as arguments. -/
def triLearpCell (m : GridDensityMedium) (fx fy fz : ℤ) (dx dy dz : ℚ) : ℚ :=
  let cx := fx + 1
  let cy := fy + 1
  let cz := fz + 1
  let y0z0 := dx * queryDensity m cx fy fz + (1 - dx) * queryDensity m fx fy fz
  let y0z1 := dx * queryDensity m cx fy cz + (1 - dx) * queryDensity m fx fy cz
  let y1z0 := dx * queryDensity m cx cy fz + (1 - dx) * queryDensity m fx cy fz
  let y1z1 := dx * queryDensity m cx cy cz + (1 - dx) * queryDensity m fx cy cz
  let z0 := dy * y1z0 + (1 - dy) * y0z0
  let z1 := dy * y1z1 + (1 - dy) * y0z1
  let val := dz * z1 + (1 - dz) * z0
  val

/-- Weight of a corner on one axis: `d` for the upper corner, `1 - d` for the lower one. -/
def axisWeight (d : ℚ) (upper : Bool) : ℚ :=
  if upper then d else 1 - d

/-- Lattice index of a corner on one axis: `f + 1` for the upper corner, `f` for the lower. -/
def axisIndex (f : ℤ) (upper : Bool) : ℤ :=
  if upper then f + 1 else f

/-- The sample at one of the eight corners of the cell that encloses `pGrid`. -/
def cornerSample (m : GridDensityMedium) (pGrid : Point3f) (ux uy uz : Bool) : ℚ :=
  queryDensity m (axisIndex ⌊pGrid.x⌋ ux) (axisIndex ⌊pGrid.y⌋ uy) (axisIndex ⌊pGrid.z⌋ uz)

/-- The weight `wx * wy * wz` of one of the eight corners. -/
def cornerWeight (pGrid : Point3f) (ux uy uz : Bool) : ℚ :=
  axisWeight (pGrid.x - ⌊pGrid.x⌋) ux * axisWeight (pGrid.y - ⌊pGrid.y⌋) uy *
    axisWeight (pGrid.z - ⌊pGrid.z⌋) uz

/-- The eight corners as triples of upper/lower flags. -/
def corners : List (Bool × Bool × Bool) :=
  [(false, false, false), (true, false, false), (false, true, false), (true, true, false),
   (false, false, true), (true, false, true), (false, true, true), (true, true, true)]

/-- The standard trilinear formula, as the specification words it: the sum over the eight
corners of `wx * wy * wz * queryDensity(corner)`. -/
def triLearp_spec (m : GridDensityMedium) (pGrid : Point3f) : ℚ :=
  (corners.map fun c => cornerWeight pGrid c.1 c.2.1 c.2.2 *
    cornerSample m pGrid c.1 c.2.1 c.2.2).sum

/-- A blend along one axis: `d * upper + (1 - d) * lower`. -/
def blendAlong (d : ℚ) (f : Bool → ℚ) : ℚ :=
  d * f true + (1 - d) * f false

/-- Modelled from the spec: the flat position of lattice point `(x, y, z)` in the sample array,
`x·ny·nz + y·nz + z`, which `queryDensity` (declared in the header `GridDensityMedium.h`, not
among the sources) reads after its bounds check. -/
def flatIndex (m : GridDensityMedium) (x y z : ℤ) : ℤ :=
  x * m.nynz + y * m.nz + z

/-- The point mapping of `toLocalOriginDir`, lines 90 to 97 of the source: the inverse transform
followed by `(x + 1) / 2`. -/
def toLocalPoint (p : Point3f) (transform : Transform) : Point3f :=
  (toLocalOriginDir p ⟨0, 0, 0⟩ transform).1

/-- A matrix whose last row is `(0, 0, 0, 1)`. -/
def Mat4f.IsAffine (a : Mat4f) : Prop :=
  a.r3 = ⟨0, 0, 0, 1⟩

/-- A matrix that translates: the identity apart from its last column. -/
def Mat4f.IsTranslation (a : Mat4f) : Prop :=
  (a.r0.x = 1 ∧ a.r0.y = 0 ∧ a.r0.z = 0) ∧ (a.r1.x = 0 ∧ a.r1.y = 1 ∧ a.r1.z = 0) ∧
    (a.r2.x = 0 ∧ a.r2.y = 0 ∧ a.r2.z = 1) ∧ a.r3 = ⟨0, 0, 0, 1⟩

/-! ## Spatial acceleration

`Octree.h` declares `build`, `recursiveBuild`, `rayIntersect`, `node_rayIntersect`,
`ocLeafMaxSize` and `root`; their bodies, `OctreeNode`, `AABB` and the primitives are not among
the sources, so this part follows sections 3 and 4.1 of the specification. -/

/-- Modelled from the spec: `AABB`, whose declaration is not among the sources; a minimum and a
maximum corner per axis. -/
structure AABB where
  pMin : Point3f
  pMax : Point3f

/-- Modelled from the spec: membership of a point in an `AABB` (closed on every axis); the box
type is not among the sources. -/
def AABB.contains (b : AABB) (p : Point3f) : Prop :=
  (b.pMin.x ≤ p.x ∧ p.x ≤ b.pMax.x) ∧ (b.pMin.y ≤ p.y ∧ p.y ≤ b.pMax.y) ∧
    (b.pMin.z ≤ p.z ∧ p.z ≤ b.pMax.z)

/-- Modelled from the spec: the overlap predicate of `AABB`, not among the sources; two boxes
overlap when their ranges meet on every axis. -/
def AABB.overlap (a b : AABB) : Bool :=
  decide ((a.pMin.x ≤ b.pMax.x ∧ b.pMin.x ≤ a.pMax.x) ∧
    (a.pMin.y ≤ b.pMax.y ∧ b.pMin.y ≤ a.pMax.y) ∧ (a.pMin.z ≤ b.pMax.z ∧ b.pMin.z ≤ a.pMax.z))

/-- Modelled from the spec: one half of a range split at its midpoint, used for the octants of
the absent `recursiveBuild`. -/
def halfRange (lo hi : ℚ) (upper : Bool) : ℚ × ℚ :=
  if upper then ((lo + hi) / 2, hi) else (lo, (lo + hi) / 2)

/-- Modelled from the spec: the octant of a box selected by one upper/lower flag per axis; the
body of `recursiveBuild`, which forms the octants, is not among the sources. -/
def AABB.octant (b : AABB) (ux uy uz : Bool) : AABB :=
  { pMin := ⟨(halfRange b.pMin.x b.pMax.x ux).1, (halfRange b.pMin.y b.pMax.y uy).1,
      (halfRange b.pMin.z b.pMax.z uz).1⟩
    pMax := ⟨(halfRange b.pMin.x b.pMax.x ux).2, (halfRange b.pMin.y b.pMax.y uy).2,
      (halfRange b.pMin.z b.pMax.z uz).2⟩ }

/-- Modelled from the spec: one axis of the ray–AABB test, which is not among the sources. The
window `w` of ray parameters is cut down to those whose coordinate on this axis lies in
`[lo, hi]`; `none` means no parameter is left. -/
def slabAxis (o d lo hi : ℚ) (w : ℚ × ℚ) : Option (ℚ × ℚ) :=
  if d = 0 then
    if lo ≤ o ∧ o ≤ hi then some w else none
  else
    let t1 := (lo - o) / d
    let t2 := (hi - o) / d
    let tmin := max w.1 (min t1 t2)
    let tmax := min w.2 (max t1 t2)
    if tmin ≤ tmax then some (tmin, tmax) else none

/-- Modelled from the spec: the ray–AABB overlap test against the window `[ray.tNear, ray.tFar]`,
which is not among the sources. -/
def AABB.rayIntersect (b : AABB) (ray : Ray) : Bool :=
  (((slabAxis ray.origin.x ray.direction.x b.pMin.x b.pMax.x (ray.tNear, ray.tFar)).bind
    (slabAxis ray.origin.y ray.direction.y b.pMin.y b.pMax.y)).bind
    (slabAxis ray.origin.z ray.direction.z b.pMin.z b.pMax.z)).isSome

/-- Modelled from the spec: what a primitive's exact ray test reports, the hit distance and the
local parameters `u`, `v`; the primitives are not among the sources. -/
structure Hit where
  t : ℚ
  u : ℚ
  v : ℚ

/-- Modelled from the spec: a primitive of the scene, not among the sources: its identifiers,
its bounding box and its exact ray test against the window `[ray.tNear, ray.tFar]`. -/
structure Primitive where
  geomID : ℤ
  primID : ℤ
  box : AABB
  intersect : Ray → Option Hit

/-- Modelled from the spec: the outputs of `rayIntersect` on a hit, `(geomID, primID, u, v)`,
together with the hit distance to which `ray.tFar` is shrunk. -/
structure Found where
  geomID : ℤ
  primID : ℤ
  u : ℚ
  v : ℚ
  t : ℚ
deriving DecidableEq, Repr

/-- Modelled from the spec: `Octree::OctreeNode`, declared but not defined in `Octree.h`: a
bounding box and either the primitive indices of a leaf or the child slots, one per octant. A
slot the build leaves absent is a leaf without indices. -/
inductive OctreeNode where
  | leaf (box : AABB) (prims : List ℕ) : OctreeNode
  | inner (box : AABB) (children : Bool → Bool → Bool → OctreeNode) : OctreeNode

/-- Modelled from the spec: the bounding box of an `OctreeNode`. -/
def OctreeNode.box : OctreeNode → AABB
  | OctreeNode.leaf box _ => box
  | OctreeNode.inner box _ => box

/-- The constant `Octree::ocLeafMaxSize`. -/
def ocLeafMaxSize : ℕ := 24

/-- Modelled from the spec: `Octree::recursiveBuild`, whose body is not among the sources. A
leaf is formed when the depth bound is reached or at most `leafMax` indices remain; otherwise
every octant receives the indices of the primitives whose box overlaps it. -/
def recursiveBuild (shapes : List Primitive) (leafMax : ℕ) : ℕ → AABB → List ℕ → OctreeNode
  | 0, aabb, primIdxBuffer => OctreeNode.leaf aabb primIdxBuffer
  | depth + 1, aabb, primIdxBuffer =>
    if primIdxBuffer.length ≤ leafMax then
      OctreeNode.leaf aabb primIdxBuffer
    else
      OctreeNode.inner aabb fun ux uy uz =>
        recursiveBuild shapes leafMax depth (aabb.octant ux uy uz)
          (primIdxBuffer.filter fun i =>
            match shapes[i]? with
            | some p => (aabb.octant ux uy uz).overlap p.box
            | none => false)

/-- Modelled from the spec: `Octree::build`, whose body is not among the sources: the root is
built from the scene box and all primitive indices. -/
def Octree.build (shapes : List Primitive) (leafMax depthBound : ℕ) (sceneAABB : AABB) :
    OctreeNode :=
  recursiveBuild shapes leafMax depthBound sceneAABB (List.range shapes.length)

/-- The ray with its `tFar` replaced. -/
def Ray.withFar (r : Ray) (tFar : ℚ) : Ray :=
  { r with tFar := tFar }

/-- Modelled from the spec: the current far end of the window, `ray.tFar` shrunk to the distance
of the best hit so far. -/
def currentFar (ray : Ray) (best : Option Found) : ℚ :=
  match best with
  | some f => f.t
  | none => ray.tFar

/-- Modelled from the spec: the exact test of one primitive at a leaf (and in the brute-force
scan): on a hit closer than the current best the outputs are updated and the window shrinks. -/
def testPrimitive (shapes : List Primitive) (ray : Ray) (best : Option Found) (i : ℕ) :
    Option Found :=
  match shapes[i]? with
  | none => best
  | some p =>
    match p.intersect (ray.withFar (currentFar ray best)) with
    | none => best
    | some h =>
      match best with
      | none => some ⟨p.geomID, p.primID, h.u, h.v, h.t⟩
      | some f => if h.t < f.t then some ⟨p.geomID, p.primID, h.u, h.v, h.t⟩ else some f

/-- Modelled from the spec: `Octree::node_rayIntersect`, whose body is not among the sources. A
leaf tests its primitives in turn; an interior node visits its children in the order `order`
gives and enters those whose box the ray overlaps within the current window. -/
def node_rayIntersect (shapes : List Primitive)
    (order : Ray → AABB → List (Bool × Bool × Bool)) (ray : Ray) :
    OctreeNode → Option Found → Option Found
  | OctreeNode.leaf _ prims, best => prims.foldl (testPrimitive shapes ray) best
  | OctreeNode.inner box children, best =>
    (order ray box).foldl
      (fun b k =>
        if (children k.1 k.2.1 k.2.2).box.rayIntersect (ray.withFar (currentFar ray b)) then
          node_rayIntersect shapes order ray (children k.1 k.2.1 k.2.2) b
        else b)
      best

/-- Modelled from the spec: `Octree::rayIntersect`, whose body is not among the sources: `none`
is the result `false` with the outputs untouched. -/
def Octree.rayIntersect (shapes : List Primitive)
    (order : Ray → AABB → List (Bool × Bool × Bool)) (root : OctreeNode) (ray : Ray) :
    Option Found :=
  node_rayIntersect shapes order ray root none

/-- Modelled from the spec: the brute-force scan over all primitives that section 8 compares the
octree with. -/
def bruteForce (shapes : List Primitive) (ray : Ray) : Option Found :=
  (List.range shapes.length).foldl (testPrimitive shapes ray) none

/-- The eight octants in a fixed order. -/
def fixedOrder : Ray → AABB → List (Bool × Bool × Bool) := fun _ _ =>
  [(false, false, false), (true, false, false), (false, true, false), (true, true, false),
   (false, false, true), (true, false, true), (false, true, true), (true, true, true)]

/-- Modelled from the spec: the contract of a primitive's ray test, which is not among the
sources: a reported hit lies in the window and inside the primitive's box, and shrinking the far
end of the window only cuts hits off. -/
structure Primitive.Lawful (p : Primitive) : Prop where
  inWindow : ∀ ray h, p.intersect ray = some h → ray.tNear ≤ h.t ∧ h.t ≤ ray.tFar
  inBox : ∀ ray h, p.intersect ray = some h → p.box.contains (ray.pointAt h.t)
  shrink : ∀ ray tFar, tFar ≤ ray.tFar →
    p.intersect (ray.withFar tFar) =
      (p.intersect ray).bind fun h => if h.t ≤ tFar then some h else none

/-- A hit that some primitive of the scene reports for the ray. -/
def IsHit (shapes : List Primitive) (ray : Ray) (f : Found) : Prop :=
  ∃ (i : ℕ) (p : Primitive) (h : Hit), shapes[i]? = some p ∧ p.intersect ray = some h ∧
    f = ⟨p.geomID, p.primID, h.u, h.v, h.t⟩

/-- The state `best` already holds a hit at distance at most `t`. -/
def Reaches (best : Option Found) (t : ℚ) : Prop :=
  ∃ f, best = some f ∧ f.t ≤ t

/-- Every hit held by the state is a hit some primitive reports for the ray. -/
def Good (shapes : List Primitive) (ray : Ray) (best : Option Found) : Prop :=
  ∀ f, best = some f → IsHit shapes ray f

/-- The result of a scan is a hit some primitive reports, and no primitive reports a nearer
one. -/
def Nearest (shapes : List Primitive) (ray : Ray) (r : Option Found) : Prop :=
  (∀ f, r = some f → IsHit shapes ray f) ∧ (∀ g, IsHit shapes ray g → Reaches r g.t)

/-! ## Binary32 rounding

The source computes in `float`. `F32.round` is round-to-nearest, ties-to-even, onto the binary32
values (24-bit significand, least exponent `-126`, subnormals included); overflow to infinity and
NaN have no rational value and are outside the model. The definitions carrying a rounding
operator `r` apply it after every arithmetic operation of the source, in the source's order;
with `r = id` they are the exact-arithmetic definitions above. -/

/-- Round to the nearest integer, ties to the even one. -/
def F32.roundHalfEven (q : ℚ) : ℤ :=
  if q - (⌊q⌋ : ℚ) < 1 / 2 then ⌊q⌋
  else if 1 / 2 < q - (⌊q⌋ : ℚ) then ⌊q⌋ + 1
  else if ⌊q⌋ % 2 = 0 then ⌊q⌋ else ⌊q⌋ + 1

/-- The exponent of the unit in the last place of the binary32 values around `x`. -/
def F32.ulpExp (x : ℚ) : ℤ :=
  max (Int.log 2 |x|) (-126) - 23

/-- The binary32 value nearest to `x`, ties to even. -/
def F32.round (x : ℚ) : ℚ :=
  if x = 0 then 0
  else (F32.roundHalfEven (x / (2 : ℚ) ^ F32.ulpExp x) : ℚ) * (2 : ℚ) ^ F32.ulpExp x

/-- The sum `Point3f + Vector3f` with each coordinate rounded by `r`. -/
def Point3f.addVecR (r : ℚ → ℚ) (p : Point3f) (v : Vector3f) : Point3f :=
  ⟨r (p.x + v.x), r (p.y + v.y), r (p.z + v.z)⟩

/-- The product of a `Vector3f` and a scalar with each coordinate rounded by `r`. -/
def Vector3f.scaleR (r : ℚ → ℚ) (t : ℚ) (v : Vector3f) : Vector3f :=
  ⟨r (t * v.x), r (t * v.y), r (t * v.z)⟩

/-- Dot product of two 4-vectors, every product and every partial sum rounded by `r`. -/
def Vec4f.dotR (r : ℚ → ℚ) (a b : Vec4f) : ℚ :=
  r (r (r (r (a.x * b.x) + r (a.y * b.y)) + r (a.z * b.z)) + r (a.w * b.w))

/-- Matrix times column vector with rounded dot products. -/
def Mat4f.mulVecR (r : ℚ → ℚ) (m : Mat4f) (v : Vec4f) : Vec4f :=
  ⟨m.r0.dotR r v, m.r1.dotR r v, m.r2.dotR r v, m.r3.dotR r v⟩

/-- Row of a matrix product with rounded dot products. -/
def Mat4f.rowMulR (r : ℚ → ℚ) (a : Vec4f) (b : Mat4f) : Vec4f :=
  ⟨a.dotR r (b.col 0), a.dotR r (b.col 1), a.dotR r (b.col 2), a.dotR r (b.col 3)⟩

/-- Matrix times matrix with rounded dot products. -/
def Mat4f.mulR (r : ℚ → ℚ) (a b : Mat4f) : Mat4f :=
  ⟨Mat4f.rowMulR r a.r0 b, Mat4f.rowMulR r a.r1 b, Mat4f.rowMulR r a.r2 b,
    Mat4f.rowMulR r a.r3 b⟩

/-- The member function `GridDensityMedium::triLearp` with every subtraction, product and sum
rounded by `r`, and the conversions of `fx`, `fy`, `fz` to `float` rounded too. -/
def triLearpR (r : ℚ → ℚ) (m : GridDensityMedium) (pGrid : Point3f) : ℚ :=
  let fx : ℤ := ⌊pGrid.x⌋
  let fy : ℤ := ⌊pGrid.y⌋
  let fz : ℤ := ⌊pGrid.z⌋
  let cx := fx + 1
  let cy := fy + 1
  let cz := fz + 1
  let dx : ℚ := r (pGrid.x - r fx)
  let dy : ℚ := r (pGrid.y - r fy)
  let dz : ℚ := r (pGrid.z - r fz)
  let y0z0 := r (r (dx * queryDensity m cx fy fz) + r (r (1 - dx) * queryDensity m fx fy fz))
  let y0z1 := r (r (dx * queryDensity m cx fy cz) + r (r (1 - dx) * queryDensity m fx fy cz))
  let y1z0 := r (r (dx * queryDensity m cx cy fz) + r (r (1 - dx) * queryDensity m fx cy fz))
  let y1z1 := r (r (dx * queryDensity m cx cy cz) + r (r (1 - dx) * queryDensity m fx cy cz))
  let z0 := r (r (dy * y1z0) + r (r (1 - dy) * y0z0))
  let z1 := r (r (dy * y1z1) + r (r (1 - dy) * y0z1))
  let val := r (r (dz * z1) + r (r (1 - dz) * z0))
  val

/-- The function `toLocalOriginDir` with every arithmetic operation rounded by `r`. -/
def toLocalOriginDirR (r : ℚ → ℚ) (oldOrig : Point3f) (oldDir : Vector3f)
    (transform : Transform) : Point3f × Vector3f :=
  let hlocalOrigin0 : Vec4f := ⟨oldOrig.x, oldOrig.y, oldOrig.z, 1⟩
  let hlocalOrigin1 : Vec4f :=
    ((transform.invScale.mulR r transform.invRotate).mulR r transform.invTranslate).mulVecR r
      hlocalOrigin0
  let hlocalOrigin : Vec4f :=
    ⟨r (hlocalOrigin1.x / hlocalOrigin1.w), r (hlocalOrigin1.y / hlocalOrigin1.w),
      r (hlocalOrigin1.z / hlocalOrigin1.w), r (hlocalOrigin1.w / hlocalOrigin1.w)⟩
  let origin0 : Point3f := ⟨hlocalOrigin.x, hlocalOrigin.y, hlocalOrigin.z⟩
  let origin1 : Point3f := origin0.addVecR r ⟨1, 1, 1⟩
  let origin : Point3f :=
    ⟨r (origin1.x * (1 / 2)), r (origin1.y * (1 / 2)), r (origin1.z * (1 / 2))⟩
  let hlocalDir0 : Vec4f := ⟨oldDir.x, oldDir.y, oldDir.z, 0⟩
  let hlocalDir : Vec4f := (transform.invScale.mulR r transform.invRotate).mulVecR r hlocalDir0
  let dir : Vector3f := ⟨hlocalDir.x, hlocalDir.y, hlocalDir.z⟩
  (origin, dir)

/-- The clamp of `Density` with the difference `1 - EPSILON` rounded by `r`. -/
def clampCoordR (r : ℚ → ℚ) (eps v : ℚ) : ℚ :=
  max (min (r (1 - eps)) v) eps

/-- The local `pGrid` of `GridDensityMedium::Density` with the conversions of `nx_`, `ny_`, `nz_`
to `float` and the three products rounded by `r`. -/
def Density_pGridR (r : ℚ → ℚ) (m : GridDensityMedium) (eps : ℚ) (p : Point3f) : Point3f :=
  let cp : Point3f := ⟨clampCoordR r eps p.x, clampCoordR r eps p.y, clampCoordR r eps p.z⟩
  ⟨r (cp.x * r m.nx), r (cp.y * r m.ny), r (cp.z * r m.nz)⟩

/-- The member function `GridDensityMedium::Density` with rounding `r`. -/
def DensityR (r : ℚ → ℚ) (m : GridDensityMedium) (eps : ℚ) (p : Point3f) : ℚ :=
  triLearpR r m (Density_pGridR r m eps p)

/-- The loop of `GridDensityMedium::Tr` with every arithmetic operation rounded by `r`. -/
def TrLoopR (r : ℚ → ℚ) (m : GridDensityMedium) (eps : ℚ) (flog : ℚ → ℚ) (tMax : ℚ)
    (sampler : ℕ → ℚ) (localOrigin : Point3f) (localDir : Vector3f) :
    ℕ → ℚ → ℚ → ℕ → Option ℚ
  | 0, _, _, _ => none
  | fuel + 1, tr, t, i =>
    let t1 := r (t - r (r (flog (r (1 - sampler i)) * m.invMaxDensity) / m.sigma_t))
    if t1 ≥ tMax then
      some tr
    else
      let density := DensityR r m eps (localOrigin.addVecR r (Vector3f.scaleR r t1 localDir))
      let tr1 := r (tr * r (1 - max 0 (r (density * m.invMaxDensity))))
      TrLoopR r m eps flog tMax sampler localOrigin localDir fuel tr1 t1 (i + 1)

set_option linter.unusedVariables false in
/-- The member function `GridDensityMedium::Tr` with rounding `r`; as in `Tr`, the conversion
reads the locals' initial values and not `p` and `w`. -/
def TrR (r : ℚ → ℚ) (m : GridDensityMedium) (eps : ℚ) (flog : ℚ → ℚ) (initOrigin : Point3f)
    (initDir : Vector3f) (p : Point3f) (w : Vector3f) (tMax : ℚ) (sampler : ℕ → ℚ)
    (fuel : ℕ) : Option Spectrum :=
  let local0 := toLocalOriginDirR r initOrigin initDir m.transform
  (TrLoopR r m eps flog tMax sampler local0.1 local0.2 fuel 1 0 0).map Spectrum.const

/-! ## Concrete data used by the examples -/

/-- The end-to-end example grid: 2×2×2, every sample 0 except the one at lattice point (1,1,1),
which is 1; `σa = σs = (0.5, 0.5, 0.5)`, `σt = 1`, and the inverse matrices are the identity. -/
def cornerGrid : GridDensityMedium where
  nx := 2
  ny := 2
  nz := 2
  nynz := 4
  density := [0, 0, 0, 0, 0, 0, 0, 1]
  invMaxDensity := 1
  sigma_a := Spectrum.const (1 / 2)
  sigma_s := Spectrum.const (1 / 2)
  sigma_t := 1
  transform := Transform.identity

/-- A 2×2×2 grid whose eight samples are all 0. The constructor would store `1.0f / 0.0f`, an
infinity, in `invMaxDensity_`; no rational equals it, and the value 1 stands in its place. -/
def zeroGrid : GridDensityMedium where
  nx := 2
  ny := 2
  nz := 2
  nynz := 4
  density := [0, 0, 0, 0, 0, 0, 0, 0]
  invMaxDensity := 1
  sigma_a := Spectrum.const (1 / 2)
  sigma_s := Spectrum.const (1 / 2)
  sigma_t := 1
  transform := Transform.identity

/-- A ray through the centre of the unit cube with zero direction and `[tNear, tFar] = [0, 2]`. -/
def collisionRay : Ray := ⟨⟨0, 0, 0⟩, ⟨0, 0, 0⟩, 0, 2⟩

/-- The scattering event at `t = 1/2` on `collisionRay`. -/
def collisionEvent : MediumIntersection where
  weight := cornerGrid.sigma_s.divScalar cornerGrid.sigma_t
  t := 1 / 2
  position := collisionRay.pointAt (1 / 2)

/-- A ray sitting at the far corner of the unit cube with `[tNear, tFar] = [0, 1]`. -/
def passRay : Ray := ⟨⟨1, 1, 1⟩, ⟨0, 0, 0⟩, 0, 1⟩

/-- The pass-through event at `tFar` on `passRay`. -/
def passEvent : MediumIntersection where
  weight := Spectrum.const 1
  t := 1
  position := passRay.pointAt 1

/-- A rational stand-in for `fm::log` in the examples: `x - 1`, which vanishes at 1 and is
negative below 1, as the logarithm is. -/
def linLog (x : ℚ) : ℚ := x - 1

/-- The sampler stream whose every value is `1/2`. -/
def halfSampler : ℕ → ℚ := fun _ => 1 / 2

/-- A rectangle in the plane `x = c`, spanning `[y0, y1] × [z0, z1]`, as a primitive: the ray
meets the plane at `t = (c - o.x) / d.x`, and the hit counts when `t` lies in the window and the
hit point lies in the rectangle; `u`, `v` are the `y` and `z` coordinates of the hit point. -/
def xPlate (geomID primID : ℤ) (c y0 y1 z0 z1 : ℚ) : Primitive where
  geomID := geomID
  primID := primID
  box := ⟨⟨c, y0, z0⟩, ⟨c, y1, z1⟩⟩
  intersect := fun ray =>
    if ray.direction.x = 0 then none
    else
      let t := (c - ray.origin.x) / ray.direction.x
      if (ray.tNear ≤ t ∧ t ≤ ray.tFar) ∧
          (y0 ≤ (ray.pointAt t).y ∧ (ray.pointAt t).y ≤ y1) ∧
          (z0 ≤ (ray.pointAt t).z ∧ (ray.pointAt t).z ≤ z1) then
        some ⟨t, (ray.pointAt t).y, (ray.pointAt t).z⟩
      else none

/-- Two coplanar rectangles in the plane `x = 3/2`: the narrow one first, the wide one second. -/
def tieShapes : List Primitive :=
  [xPlate 0 0 (3 / 2) (5 / 4) (7 / 4) 0 1, xPlate 0 1 (3 / 2) 0 2 0 1]

/-- The scene box `[0, 2]³` of `tieShapes`. -/
def tieScene : AABB := ⟨⟨0, 0, 0⟩, ⟨2, 2, 2⟩⟩

/-- A ray that starts below the narrow rectangle and meets both rectangles at `t = 1`, in the
point `(3/2, 3/2, 1/2)`. -/
def tieRay : Ray := ⟨⟨1, 0, 1 / 2⟩, ⟨1 / 2, 3 / 2, 0⟩, 0, 10⟩

theorem fracWeight_nonneg (x : ℚ) : 0 ≤ x - (⌊x⌋ : ℚ) :=
  sub_nonneg.mpr (Int.floor_le x)

theorem fracWeight_lt_one (x : ℚ) : x - (⌊x⌋ : ℚ) < 1 := by
  have h := Int.lt_floor_add_one x
  linarith

theorem blend_nonneg {d a b : ℚ} (h0 : 0 ≤ d) (h1 : d ≤ 1) (ha : 0 ≤ a) (hb : 0 ≤ b) :
    0 ≤ d * a + (1 - d) * b :=
  add_nonneg (mul_nonneg h0 ha) (mul_nonneg (sub_nonneg.mpr h1) hb)

theorem getD_zero_nonneg (l : List ℚ) (h : ∀ v ∈ l, 0 ≤ v) (n : ℕ) : 0 ≤ l.getD n 0 := by
  by_cases hn : n < l.length
  · rw [List.getD_eq_getElem l 0 hn]
    exact h _ (List.getElem_mem hn)
  · rw [List.getD_eq_default l 0 (not_lt.mp hn)]

theorem queryDensity_nonneg (m : GridDensityMedium) (h : ∀ v ∈ m.density, 0 ≤ v) (x y z : ℤ) :
    0 ≤ queryDensity m x y z := by
  unfold queryDensity
  split
  · exact getD_zero_nonneg _ h _
  · exact le_refl 0

theorem triLearp_nonneg (m : GridDensityMedium) (h : ∀ v ∈ m.density, 0 ≤ v) (pGrid : Point3f) :
    0 ≤ triLearp m pGrid := by
  have q := queryDensity_nonneg m h
  have ax := fracWeight_nonneg pGrid.x
  have bx := (fracWeight_lt_one pGrid.x).le
  have ay := fracWeight_nonneg pGrid.y
  have hy := (fracWeight_lt_one pGrid.y).le
  have az := fracWeight_nonneg pGrid.z
  have bz := (fracWeight_lt_one pGrid.z).le
  simp only [triLearp]
  exact blend_nonneg az bz
    (blend_nonneg ay hy (blend_nonneg ax bx (q _ _ _) (q _ _ _))
      (blend_nonneg ax bx (q _ _ _) (q _ _ _)))
    (blend_nonneg ay hy (blend_nonneg ax bx (q _ _ _) (q _ _ _))
      (blend_nonneg ax bx (q _ _ _) (q _ _ _)))

theorem triLearp_at_lattice (m : GridDensityMedium) (i j k : ℤ) :
    triLearp m ⟨i, j, k⟩ = queryDensity m i j k := by
  simp [triLearp]

theorem clampCoord_of_mem {eps v : ℚ} (h1 : eps ≤ v) (h2 : v ≤ 1 - eps) :
    clampCoord eps v = v := by
  unfold clampCoord
  rw [min_eq_right h2, max_eq_left h1]

theorem cornerGrid_query (x y z : ℤ) :
    queryDensity cornerGrid x y z = if x = 1 ∧ y = 1 ∧ z = 1 then 1 else 0 := by
  unfold queryDensity
  split
  · rename_i h
    obtain ⟨h1, h2, h3, h4, h5, h6⟩ := h
    simp only [cornerGrid] at h2 h4 h6
    interval_cases x <;> interval_cases y <;> interval_cases z <;> simp [cornerGrid]
  · rename_i h
    have : ¬ (x = 1 ∧ y = 1 ∧ z = 1) := by
      rintro ⟨rfl, rfl, rfl⟩
      exact h (by simp [cornerGrid])
    rw [if_neg this]

theorem floor_eq_one_of {x : ℚ} (h1 : 1 ≤ x) (h2 : x < 2) : ⌊x⌋ = 1 := by
  rw [Int.floor_eq_iff]
  constructor
  · simpa using h1
  · norm_num
    linarith

theorem Density_cornerGrid_far {eps : ℚ} (h0 : 0 < eps) (h1 : eps ≤ 1 / 2) :
    Density cornerGrid eps ⟨1, 1, 1⟩ = 8 * eps ^ 3 := by
  have hc : clampCoord eps 1 = 1 - eps := by
    unfold clampCoord
    rw [min_eq_left (by linarith), max_eq_left (by linarith)]
  have hf : ⌊(1 - eps) * 2⌋ = 1 := floor_eq_one_of (by linarith) (by linarith)
  simp only [Density, Density_pGrid, triLearp, hc, cornerGrid_query]
  simp only [show ((cornerGrid.nx : ℤ) : ℚ) = 2 by simp [cornerGrid],
    show ((cornerGrid.ny : ℤ) : ℚ) = 2 by simp [cornerGrid],
    show ((cornerGrid.nz : ℤ) : ℚ) = 2 by simp [cornerGrid], hf]
  norm_num
  ring

theorem Density_cornerGrid_mid {eps : ℚ} (h1 : eps ≤ 1 / 2) :
    Density cornerGrid eps ⟨1 / 2, 1 / 2, 1 / 2⟩ = 1 := by
  have hc : clampCoord eps (1 / 2) = 1 / 2 :=
    clampCoord_of_mem h1 (by linarith)
  have hf : ⌊(1 / 2 : ℚ) * 2⌋ = 1 := floor_eq_one_of (by norm_num) (by norm_num)
  simp only [Density, Density_pGrid, triLearp, hc, cornerGrid_query]
  simp only [show ((cornerGrid.nx : ℤ) : ℚ) = 2 by simp [cornerGrid],
    show ((cornerGrid.ny : ℤ) : ℚ) = 2 by simp [cornerGrid],
    show ((cornerGrid.nz : ℤ) : ℚ) = 2 by simp [cornerGrid], hf]
  norm_num

theorem clampCoord_ge (eps v : ℚ) : eps ≤ clampCoord eps v :=
  le_max_right _ _

theorem clampCoord_lt_one {eps : ℚ} (h0 : 0 < eps) (h1 : eps < 1) (v : ℚ) :
    clampCoord eps v < 1 := by
  unfold clampCoord
  apply max_lt
  · exact lt_of_le_of_lt (min_le_left _ _) (by linarith)
  · exact h1

/-- Index bounds on one axis: the lower index is inside `[0, n)`, the upper index is inside
`[1, n]`, and the upper index is below `n` exactly when the grid coordinate is below `n - 1`. -/
theorem axis_index_bounds {n : ℤ} {eps : ℚ} (hn : 0 < n) (h0 : 0 < eps) (h1 : eps < 1) (v : ℚ) :
    0 ≤ ⌊clampCoord eps v * n⌋ ∧ ⌊clampCoord eps v * n⌋ < n ∧
      (⌊clampCoord eps v * n⌋ + 1 < n ↔ clampCoord eps v * n < n - 1) := by
  have hnq : (0 : ℚ) < n := by exact_mod_cast hn
  have hc0 : 0 < clampCoord eps v := lt_of_lt_of_le h0 (clampCoord_ge eps v)
  have hc1 := clampCoord_lt_one h0 h1 v
  refine ⟨Int.floor_nonneg.mpr (mul_nonneg hc0.le hnq.le), ?_, ?_⟩
  · rw [Int.floor_lt]
    nlinarith
  · rw [← lt_sub_iff_add_lt, Int.floor_lt]
    push_cast
    rfl

theorem flatIndex_lt {nx ny nz x y z : ℤ} (hx0 : 0 ≤ x) (hx : x < nx) (hy0 : 0 ≤ y)
    (hy : y < ny) (hz0 : 0 ≤ z) (hz : z < nz) :
    0 ≤ x * (ny * nz) + y * nz + z ∧ x * (ny * nz) + y * nz + z < nx * ny * nz := by
  have hny : 0 < ny := lt_of_le_of_lt hy0 hy
  have hnz : 0 < nz := lt_of_le_of_lt hz0 hz
  have h1 : 0 ≤ x * (ny * nz) := mul_nonneg hx0 (mul_pos hny hnz).le
  have h2 : 0 ≤ y * nz := mul_nonneg hy0 hnz.le
  refine ⟨by linarith, ?_⟩
  have h3 : (x + 1) * (ny * nz) ≤ nx * (ny * nz) :=
    mul_le_mul_of_nonneg_right (by omega) (mul_pos hny hnz).le
  have h4 : (y + 1) * nz ≤ ny * nz := mul_le_mul_of_nonneg_right (by omega) hnz.le
  nlinarith

/-- C6, as stated, fails: on the end-to-end grid with `EPSILON = 1/1000`, `Density` at the local
point (1,1,1) is not within 0.01 of 1. -/
theorem Density_far_corner_not_one :
    (0 : ℚ) < 1 / 1000 ∧ (1 / 1000 : ℚ) ≤ 1 / 1000 ∧
      ¬ |Density cornerGrid (1 / 1000) ⟨1, 1, 1⟩ - 1| ≤ 1 / 100 := by
  refine ⟨by norm_num, le_refl _, ?_⟩
  rw [Density_cornerGrid_far (by norm_num) (by norm_num)]
  norm_num [abs_le]

/-- C6, amended: on the end-to-end grid with `0 < EPSILON ≤ 1/1000`, `Density` at the local point
(1,1,1) equals `8·EPSILON³`, which is within 0.01 of 0, and the sample 1 stored at lattice point
(1,1,1) is the value of `Density` at the local point (1/2,1/2,1/2). -/
theorem Density_far_corner (eps : ℚ) (h0 : 0 < eps) (h1 : eps ≤ 1 / 1000) :
    Density cornerGrid eps ⟨1, 1, 1⟩ = 8 * eps ^ 3 ∧
      |Density cornerGrid eps ⟨1, 1, 1⟩| ≤ 1 / 100 ∧
      Density cornerGrid eps ⟨1 / 2, 1 / 2, 1 / 2⟩ = 1 := by
  have hfar := Density_cornerGrid_far h0 (by linarith : eps ≤ 1 / 2)
  refine ⟨hfar, ?_, Density_cornerGrid_mid (by linarith)⟩
  rw [hfar, abs_of_nonneg (by positivity)]
  have h2 : eps ^ 3 ≤ (1 / 1000) ^ 3 := pow_le_pow_left₀ h0.le h1 3
  linarith

/-- Witness for `Density_far_corner` at `EPSILON = 1/1000`. -/
theorem Density_far_corner_witness :
    Density cornerGrid (1 / 1000) ⟨1, 1, 1⟩ = 8 * (1 / 1000 : ℚ) ^ 3 ∧
      |Density cornerGrid (1 / 1000) ⟨1, 1, 1⟩| ≤ 1 / 100 ∧
      Density cornerGrid (1 / 1000) ⟨1 / 2, 1 / 2, 1 / 2⟩ = 1 :=
  Density_far_corner (1 / 1000) (by norm_num) (by norm_num)

/-- C7, as stated, fails: on the end-to-end grid with `EPSILON = 1/1000` and `p = (1,1,1)`, which
lies in the unit cube, the upper x index that `triLearp` looks up is not below `nx`. -/
theorem Density_upper_index_out_of_range :
    ¬ (⌊(Density_pGrid cornerGrid (1 / 1000) ⟨1, 1, 1⟩).x⌋ + 1 < cornerGrid.nx) := by
  have hc : clampCoord (1 / 1000) 1 = 999 / 1000 := by
    unfold clampCoord
    rw [min_eq_left (by norm_num), max_eq_left (by norm_num)]
    norm_num
  have hf : ⌊(999 / 1000 : ℚ) * 2⌋ = 1 := floor_eq_one_of (by norm_num) (by norm_num)
  simp only [Density_pGrid, hc, show ((cornerGrid.nx : ℤ) : ℚ) = 2 by simp [cornerGrid], hf]
  simp [cornerGrid]

/-- C7, amended: for a grid with positive dimensions, `0 < EPSILON < 1` and any point `p`, the
lower (floor) index that `Density` hands to `triLearp` lies in `[0, n)` on each axis; the upper
index (floor + 1) lies below `n` exactly when the rescaled coordinate is below `n - 1`, and is `n`,
outside the grid, otherwise. -/
theorem Density_index_bounds (m : GridDensityMedium) (eps : ℚ) (p : Point3f)
    (hnx : 0 < m.nx) (hny : 0 < m.ny) (hnz : 0 < m.nz) (h0 : 0 < eps) (h1 : eps < 1) :
    (0 ≤ ⌊(Density_pGrid m eps p).x⌋ ∧ ⌊(Density_pGrid m eps p).x⌋ < m.nx ∧
      (⌊(Density_pGrid m eps p).x⌋ + 1 < m.nx ↔ (Density_pGrid m eps p).x < m.nx - 1)) ∧
    (0 ≤ ⌊(Density_pGrid m eps p).y⌋ ∧ ⌊(Density_pGrid m eps p).y⌋ < m.ny ∧
      (⌊(Density_pGrid m eps p).y⌋ + 1 < m.ny ↔ (Density_pGrid m eps p).y < m.ny - 1)) ∧
    (0 ≤ ⌊(Density_pGrid m eps p).z⌋ ∧ ⌊(Density_pGrid m eps p).z⌋ < m.nz ∧
      (⌊(Density_pGrid m eps p).z⌋ + 1 < m.nz ↔ (Density_pGrid m eps p).z < m.nz - 1)) :=
  ⟨axis_index_bounds hnx h0 h1 p.x, axis_index_bounds hny h0 h1 p.y,
    axis_index_bounds hnz h0 h1 p.z⟩

/-- Witness for `Density_index_bounds` on the end-to-end grid at `p = (1,1,1)`. -/
theorem Density_index_bounds_witness :
    (0 ≤ ⌊(Density_pGrid cornerGrid (1 / 1000) ⟨1, 1, 1⟩).x⌋ ∧
      ⌊(Density_pGrid cornerGrid (1 / 1000) ⟨1, 1, 1⟩).x⌋ < cornerGrid.nx ∧
      (⌊(Density_pGrid cornerGrid (1 / 1000) ⟨1, 1, 1⟩).x⌋ + 1 < cornerGrid.nx ↔
        (Density_pGrid cornerGrid (1 / 1000) ⟨1, 1, 1⟩).x < cornerGrid.nx - 1)) ∧
    (0 ≤ ⌊(Density_pGrid cornerGrid (1 / 1000) ⟨1, 1, 1⟩).y⌋ ∧
      ⌊(Density_pGrid cornerGrid (1 / 1000) ⟨1, 1, 1⟩).y⌋ < cornerGrid.ny ∧
      (⌊(Density_pGrid cornerGrid (1 / 1000) ⟨1, 1, 1⟩).y⌋ + 1 < cornerGrid.ny ↔
        (Density_pGrid cornerGrid (1 / 1000) ⟨1, 1, 1⟩).y < cornerGrid.ny - 1)) ∧
    (0 ≤ ⌊(Density_pGrid cornerGrid (1 / 1000) ⟨1, 1, 1⟩).z⌋ ∧
      ⌊(Density_pGrid cornerGrid (1 / 1000) ⟨1, 1, 1⟩).z⌋ < cornerGrid.nz ∧
      (⌊(Density_pGrid cornerGrid (1 / 1000) ⟨1, 1, 1⟩).z⌋ + 1 < cornerGrid.nz ↔
        (Density_pGrid cornerGrid (1 / 1000) ⟨1, 1, 1⟩).z < cornerGrid.nz - 1)) :=
  Density_index_bounds cornerGrid (1 / 1000) ⟨1, 1, 1⟩ (by decide) (by decide) (by decide)
    (by norm_num) (by norm_num)

/-- C9: when every sample is non-negative, `Density(p) ≥ 0` for every point `p`, inside the unit
cube or not, and `triLearp(pGrid) ≥ 0` for every grid coordinate `pGrid`. -/
theorem Density_nonneg (m : GridDensityMedium) (eps : ℚ) (h : ∀ v ∈ m.density, 0 ≤ v)
    (p pGrid : Point3f) : 0 ≤ Density m eps p ∧ 0 ≤ triLearp m pGrid :=
  ⟨triLearp_nonneg m h _, triLearp_nonneg m h pGrid⟩

/-- Witness for `Density_nonneg` on the end-to-end grid, at a point outside the unit cube. -/
theorem Density_nonneg_witness :
    0 ≤ Density cornerGrid (1 / 1000) ⟨-3, 5, 1 / 2⟩ ∧ 0 ≤ triLearp cornerGrid ⟨-1 / 2, 7, 1⟩ :=
  Density_nonneg cornerGrid (1 / 1000) (by simp [cornerGrid]) ⟨-3, 5, 1 / 2⟩ ⟨-1 / 2, 7, 1⟩

/-- C10: in exact arithmetic, `triLearp` at an integer coordinate `(a,b,c)` returns
`queryDensity(a,b,c)`; and for an in-range lattice point `(i,j,k)` whose unit-cube image
`(i/nx, j/ny, k/nz)` the clamp leaves in place, `Density` returns `queryDensity(i,j,k)`. -/
theorem Density_at_lattice_point (m : GridDensityMedium) (eps : ℚ) (i j k : ℤ)
    (hi : 0 ≤ i ∧ i < m.nx) (hj : 0 ≤ j ∧ j < m.ny) (hk : 0 ≤ k ∧ k < m.nz)
    (hx : eps ≤ (i : ℚ) / m.nx ∧ (i : ℚ) / m.nx ≤ 1 - eps)
    (hy : eps ≤ (j : ℚ) / m.ny ∧ (j : ℚ) / m.ny ≤ 1 - eps)
    (hz : eps ≤ (k : ℚ) / m.nz ∧ (k : ℚ) / m.nz ≤ 1 - eps) :
    Density m eps ⟨(i : ℚ) / m.nx, (j : ℚ) / m.ny, (k : ℚ) / m.nz⟩ = queryDensity m i j k ∧
      ∀ a b c : ℤ, triLearp m ⟨a, b, c⟩ = queryDensity m a b c := by
  refine ⟨?_, triLearp_at_lattice m⟩
  have hnx : (m.nx : ℚ) ≠ 0 := by
    have : (0 : ℤ) < m.nx := by omega
    exact_mod_cast this.ne'
  have hny : (m.ny : ℚ) ≠ 0 := by
    have : (0 : ℤ) < m.ny := by omega
    exact_mod_cast this.ne'
  have hnz : (m.nz : ℚ) ≠ 0 := by
    have : (0 : ℤ) < m.nz := by omega
    exact_mod_cast this.ne'
  simp only [Density, Density_pGrid, clampCoord_of_mem hx.1 hx.2, clampCoord_of_mem hy.1 hy.2,
    clampCoord_of_mem hz.1 hz.2, div_mul_cancel₀ _ hnx, div_mul_cancel₀ _ hny,
    div_mul_cancel₀ _ hnz]
  exact triLearp_at_lattice m i j k

/-- Witness for `Density_at_lattice_point`: lattice point (1,1,1) of the end-to-end grid. -/
theorem Density_at_lattice_point_witness :
    Density cornerGrid (1 / 1000)
        ⟨((1 : ℤ) : ℚ) / cornerGrid.nx, ((1 : ℤ) : ℚ) / cornerGrid.ny,
          ((1 : ℤ) : ℚ) / cornerGrid.nz⟩ = queryDensity cornerGrid 1 1 1 ∧
      ∀ a b c : ℤ, triLearp cornerGrid ⟨a, b, c⟩ = queryDensity cornerGrid a b c :=
  Density_at_lattice_point cornerGrid (1 / 1000) 1 1 1 (by decide) (by decide) (by decide)
    (by norm_num [cornerGrid]) (by norm_num [cornerGrid]) (by norm_num [cornerGrid])

/-! ## The majorant -/

theorem queryDensity_zero (m : GridDensityMedium) (hz : ∀ v ∈ m.density, v = 0) (x y z : ℤ) :
    queryDensity m x y z = 0 := by
  unfold queryDensity
  split
  · by_cases hn : (x * m.nynz + y * m.nz + z).toNat < m.density.length
    · rw [List.getD_eq_getElem _ 0 hn]
      exact hz _ (List.getElem_mem hn)
    · rw [List.getD_eq_default _ 0 (not_lt.mp hn)]
  · rfl

theorem Density_zero (m : GridDensityMedium) (eps : ℚ) (hz : ∀ v ∈ m.density, v = 0)
    (q : Point3f) : Density m eps q = 0 := by
  simp [Density, triLearp, queryDensity_zero m hz]

theorem TrLoop_zero (m : GridDensityMedium) (eps : ℚ) (flog : ℚ → ℚ) (tMax : ℚ)
    (sampler : ℕ → ℚ) (localOrigin : Point3f) (localDir : Vector3f)
    (hz : ∀ v ∈ m.density, v = 0) (fuel : ℕ) :
    ∀ (tr t : ℚ) (i : ℕ) (r : ℚ),
      TrLoop m eps flog tMax sampler localOrigin localDir fuel tr t i = some r → r = tr := by
  induction fuel with
  | zero =>
    intro tr t i r h
    simp [TrLoop] at h
  | succ n ih =>
    intro tr t i r h
    simp only [TrLoop] at h
    split at h
    · cases h
      rfl
    · rw [Density_zero m eps hz] at h
      have := ih _ _ _ _ h
      rw [this]
      simp

/-! ## Runs on the end-to-end grid -/

theorem toLocalOriginDir_identity (p : Point3f) (w : Vector3f) :
    toLocalOriginDir p w Transform.identity =
      (⟨(p.x + 1) * (1 / 2), (p.y + 1) * (1 / 2), (p.z + 1) * (1 / 2)⟩, w) := by
  simp [toLocalOriginDir, Transform.identity, Mat4f.mul, Mat4f.rowMul, Mat4f.col, Mat4f.one,
    Mat4f.mulVec, Vec4f.dot, Point3f.addVec]

theorem linLog_nonpos (x : ℚ) (_h0 : 0 < x) (h1 : x ≤ 1) : linLog x ≤ 0 := by
  unfold linLog
  linarith

theorem halfSampler_range (i : ℕ) : 0 ≤ halfSampler i ∧ halfSampler i < 1 := by
  unfold halfSampler
  norm_num

theorem cornerGrid_invMaxDensity : cornerGrid.invMaxDensity = 1 := rfl

theorem cornerGrid_sigma_t : cornerGrid.sigma_t = 1 := rfl

theorem cornerGrid_transform : cornerGrid.transform = Transform.identity := rfl

/-- With zero-initialised locals, `Tr` on the end-to-end grid evaluates the density at the
centre of the cube, whatever `p` and `w` are. -/
theorem Tr_cornerGrid_run (p : Point3f) (w : Vector3f) :
    Tr cornerGrid (1 / 1000) linLog ⟨0, 0, 0⟩ ⟨0, 0, 0⟩ p w 1 halfSampler 2 =
      some (Spectrum.const 0) := by
  have hd : Density cornerGrid (1 / 1000) ⟨1 / 2, 1 / 2, 1 / 2⟩ = 1 :=
    Density_cornerGrid_mid (by norm_num)
  have hl : toLocalOriginDir ⟨0, 0, 0⟩ ⟨0, 0, 0⟩ cornerGrid.transform =
      (⟨1 / 2, 1 / 2, 1 / 2⟩, ⟨0, 0, 0⟩) := by
    rw [cornerGrid_transform, toLocalOriginDir_identity]
    norm_num
  simp only [Tr, hl, TrLoop]
  norm_num [halfSampler, linLog, cornerGrid_invMaxDensity, cornerGrid_sigma_t, Point3f.addVec,
    Vector3f.scale, hd]

/-- The ratio-tracking product along the local ray derived from `p = (1,1,1)`, `w = 0`. -/
theorem Tr_spec_cornerGrid_run :
    Tr_spec cornerGrid (1 / 1000) linLog ⟨1, 1, 1⟩ ⟨0, 0, 0⟩ 1 halfSampler 2 =
      some (Spectrum.const (1 - 8 * (1 / 1000) ^ 3)) := by
  have hd : Density cornerGrid (1 / 1000) ⟨1, 1, 1⟩ = 8 * (1 / 1000) ^ 3 :=
    Density_cornerGrid_far (by norm_num) (by norm_num)
  have hl : toLocalOriginDir ⟨1, 1, 1⟩ ⟨0, 0, 0⟩ cornerGrid.transform =
      (⟨1, 1, 1⟩, ⟨0, 0, 0⟩) := by
    rw [cornerGrid_transform, toLocalOriginDir_identity]
    norm_num
  simp only [Tr_spec, hl, TrLoop]
  norm_num [halfSampler, linLog, cornerGrid_invMaxDensity, cornerGrid_sigma_t, Point3f.addVec,
    Vector3f.scale, hd]

/-- A run of `sample_forward` that ends in a real collision at `t = 1/2`. -/
theorem sample_forward_collision_run :
    sample_forward cornerGrid (1 / 1000) linLog collisionRay halfSampler 1 =
      some collisionEvent := by
  have hd : Density cornerGrid (1 / 1000) ⟨1 / 2, 1 / 2, 1 / 2⟩ = 1 :=
    Density_cornerGrid_mid (by norm_num)
  have hl : toLocalOriginDir ⟨0, 0, 0⟩ ⟨0, 0, 0⟩ cornerGrid.transform =
      (⟨1 / 2, 1 / 2, 1 / 2⟩, ⟨0, 0, 0⟩) := by
    rw [cornerGrid_transform, toLocalOriginDir_identity]
    norm_num
  simp only [sample_forward, collisionRay, collisionEvent, hl, sample_forwardLoop]
  norm_num [halfSampler, linLog, cornerGrid_invMaxDensity, cornerGrid_sigma_t, Point3f.addVec,
    Vector3f.scale, hd]

/-- A run of `sample_forward` with one null collision that then passes through at `tFar = 1`. -/
theorem sample_forward_passthrough_run :
    sample_forward cornerGrid (1 / 1000) linLog passRay halfSampler 2 = some passEvent := by
  have hd : Density cornerGrid (1 / 1000) ⟨1, 1, 1⟩ = 8 * (1 / 1000) ^ 3 :=
    Density_cornerGrid_far (by norm_num) (by norm_num)
  have hl : toLocalOriginDir ⟨1, 1, 1⟩ ⟨0, 0, 0⟩ cornerGrid.transform =
      (⟨1, 1, 1⟩, ⟨0, 0, 0⟩) := by
    rw [cornerGrid_transform, toLocalOriginDir_identity]
    norm_num
  simp only [sample_forward, passRay, passEvent, hl, sample_forwardLoop]
  norm_num [halfSampler, linLog, cornerGrid_invMaxDensity, cornerGrid_sigma_t, Point3f.addVec,
    Vector3f.scale, hd]

theorem zeroGrid_all_zero : ∀ v ∈ zeroGrid.density, v = 0 := by
  simp [zeroGrid]

theorem zeroGrid_invMaxDensity : zeroGrid.invMaxDensity = 1 := rfl

theorem zeroGrid_sigma_t : zeroGrid.sigma_t = 1 := rfl

/-- A run of `Tr` on the all-zero grid with one loop iteration before `t` reaches `tMax = 1`. -/
theorem Tr_zeroGrid_run :
    Tr zeroGrid (1 / 1000) linLog ⟨0, 0, 0⟩ ⟨0, 0, 0⟩ ⟨0, 0, 0⟩ ⟨1, 0, 0⟩ 1 halfSampler 2 =
      some (Spectrum.const 1) := by
  simp only [Tr, TrLoop, Density_zero zeroGrid _ zeroGrid_all_zero]
  norm_num [halfSampler, linLog, zeroGrid_invMaxDensity, zeroGrid_sigma_t]

/-! ## The sampling loops -/

theorem freeFlight_nonneg {flog : ℚ → ℚ} {u inv sig : ℚ} (hsig : 0 < sig) (hinv : 0 < inv)
    (hu : 0 ≤ u ∧ u < 1) (hlog : ∀ x, 0 < x → x ≤ 1 → flog x ≤ 0) :
    flog (1 - u) * inv / sig ≤ 0 := by
  have h1 : flog (1 - u) ≤ 0 := hlog (1 - u) (by linarith [hu.2]) (by linarith [hu.1])
  exact div_nonpos_of_nonpos_of_nonneg (mul_nonpos_of_nonpos_of_nonneg h1 hinv.le) hsig.le

theorem sample_forwardLoop_range (m : GridDensityMedium) (eps : ℚ) (flog : ℚ → ℚ) (ray : Ray)
    (sampler : ℕ → ℚ) (localOrigin : Point3f) (localDir : Vector3f)
    (hnf : ray.tNear ≤ ray.tFar) (hsig : 0 < m.sigma_t) (hinv : 0 < m.invMaxDensity)
    (hsamp : ∀ i, 0 ≤ sampler i ∧ sampler i < 1)
    (hlog : ∀ x, 0 < x → x ≤ 1 → flog x ≤ 0) (fuel : ℕ) :
    ∀ (t : ℚ) (i : ℕ) (mit : MediumIntersection), ray.tNear ≤ t →
      sample_forwardLoop m eps flog ray sampler localOrigin localDir fuel t i = some mit →
      ray.tNear ≤ mit.t ∧ mit.t ≤ ray.tFar := by
  induction fuel with
  | zero =>
    intro t i mit _ h
    simp [sample_forwardLoop] at h
  | succ n ih =>
    intro t i mit ht h
    have hstep := freeFlight_nonneg hsig hinv (hsamp i) hlog
    simp only [sample_forwardLoop] at h
    split at h
    · cases h
      exact ⟨hnf, le_refl _⟩
    · rename_i hlt
      split at h
      · cases h
        exact ⟨by simp only; linarith, by simp only; exact (not_le.mp hlt).le⟩
      · exact ih _ _ _ (by linarith) h

theorem sample_forwardLoop_event (m : GridDensityMedium) (eps : ℚ) (flog : ℚ → ℚ) (ray : Ray)
    (sampler : ℕ → ℚ) (localOrigin : Point3f) (localDir : Vector3f) (fuel : ℕ) :
    ∀ (t : ℚ) (i : ℕ) (mit : MediumIntersection),
      sample_forwardLoop m eps flog ray sampler localOrigin localDir fuel t i = some mit →
      (mit.t = ray.tFar →
        mit.weight = Spectrum.const 1 ∧ mit.position = ray.pointAt ray.tFar) ∧
      (mit.t ≠ ray.tFar →
        mit.weight = m.sigma_s.divScalar m.sigma_t ∧ mit.position = ray.pointAt mit.t) := by
  induction fuel with
  | zero =>
    intro t i mit h
    simp [sample_forwardLoop] at h
  | succ n ih =>
    intro t i mit h
    simp only [sample_forwardLoop] at h
    split at h
    · cases h
      exact ⟨fun _ => ⟨rfl, rfl⟩, fun hne => absurd rfl hne⟩
    · rename_i hlt
      split at h
      · cases h
        refine ⟨fun heq => ?_, fun _ => ⟨rfl, rfl⟩⟩
        simp only at heq
        exact absurd (le_of_eq heq.symm) hlt
      · exact ih _ _ _ h

/-! ## Sampling and transmittance -/

/-- C1: the claim is that `Tr` steps along the local origin and direction derived from its inputs
`(p, w)`. The code hands `toLocalOriginDir` its own freshly declared locals instead, so its result
does not depend on `p` or `w`: whatever those locals hold, the code differs from the ratio-tracking
product along the true local ray for `p = (0,0,0)` or for `p = (1,1,1)`; with zero-initialised
locals it returns `Spectrum(0)` for `p = (1,1,1)`, where the product along the true ray is
`1 - 8·10⁻⁹`. -/
theorem Tr_ignores_p_and_w :
    (∀ (m : GridDensityMedium) (eps : ℚ) (flog : ℚ → ℚ) (initOrigin p p' : Point3f)
        (initDir w w' : Vector3f) (tMax : ℚ) (sampler : ℕ → ℚ) (fuel : ℕ),
        Tr m eps flog initOrigin initDir p w tMax sampler fuel =
          Tr m eps flog initOrigin initDir p' w' tMax sampler fuel) ∧
      (∀ (initOrigin : Point3f) (initDir : Vector3f),
        Tr cornerGrid (1 / 1000) linLog initOrigin initDir ⟨0, 0, 0⟩ ⟨0, 0, 0⟩ 1 halfSampler 2 ≠
            Tr_spec cornerGrid (1 / 1000) linLog ⟨0, 0, 0⟩ ⟨0, 0, 0⟩ 1 halfSampler 2 ∨
          Tr cornerGrid (1 / 1000) linLog initOrigin initDir ⟨1, 1, 1⟩ ⟨0, 0, 0⟩ 1 halfSampler 2 ≠
            Tr_spec cornerGrid (1 / 1000) linLog ⟨1, 1, 1⟩ ⟨0, 0, 0⟩ 1 halfSampler 2) ∧
      Tr cornerGrid (1 / 1000) linLog ⟨0, 0, 0⟩ ⟨0, 0, 0⟩ ⟨1, 1, 1⟩ ⟨0, 0, 0⟩ 1 halfSampler 2 =
        some (Spectrum.const 0) ∧
      Tr_spec cornerGrid (1 / 1000) linLog ⟨1, 1, 1⟩ ⟨0, 0, 0⟩ 1 halfSampler 2 =
        some (Spectrum.const (1 - 8 * (1 / 1000) ^ 3)) := by
  have hne : Tr_spec cornerGrid (1 / 1000) linLog ⟨0, 0, 0⟩ ⟨0, 0, 0⟩ 1 halfSampler 2 ≠
      Tr_spec cornerGrid (1 / 1000) linLog ⟨1, 1, 1⟩ ⟨0, 0, 0⟩ 1 halfSampler 2 := by
    have h0 : Tr_spec cornerGrid (1 / 1000) linLog ⟨0, 0, 0⟩ ⟨0, 0, 0⟩ 1 halfSampler 2 =
        some (Spectrum.const 0) := Tr_cornerGrid_run ⟨0, 0, 0⟩ ⟨0, 0, 0⟩
    rw [h0, Tr_spec_cornerGrid_run]
    intro h
    have h2 := congrFun (Option.some.inj h) 0
    simp only [Spectrum.const] at h2
    norm_num at h2
  refine ⟨fun _ _ _ _ _ _ _ _ _ _ _ _ => rfl, ?_, Tr_cornerGrid_run _ _, Tr_spec_cornerGrid_run⟩
  intro initOrigin initDir
  by_contra hcon
  push_neg at hcon
  exact hne (hcon.1.symm.trans hcon.2)

/-- C2: for a ray with `tNear ≤ tFar`, a medium with `σt > 0` and `invMaxDensity > 0`, a sampler
stream with values in `[0,1)` and a logarithm that is non-positive on `(0,1]`, whenever
`sample_forward` returns, the returned `t` lies in `[ray.tNear, ray.tFar]`. -/
theorem sample_forward_t_range (m : GridDensityMedium) (eps : ℚ) (flog : ℚ → ℚ) (ray : Ray)
    (sampler : ℕ → ℚ) (fuel : ℕ) (mit : MediumIntersection)
    (hnf : ray.tNear ≤ ray.tFar) (hsig : 0 < m.sigma_t) (hinv : 0 < m.invMaxDensity)
    (hsamp : ∀ i, 0 ≤ sampler i ∧ sampler i < 1)
    (hlog : ∀ x, 0 < x → x ≤ 1 → flog x ≤ 0)
    (hret : sample_forward m eps flog ray sampler fuel = some mit) :
    ray.tNear ≤ mit.t ∧ mit.t ≤ ray.tFar :=
  sample_forwardLoop_range m eps flog ray sampler _ _ hnf hsig hinv hsamp hlog fuel _ _ mit
    (le_refl _) hret

/-- Witness for `sample_forward_t_range`: the run on the end-to-end grid that scatters at
`t = 1/2` inside `[0, 2]`. -/
theorem sample_forward_t_range_witness :
    sample_forward cornerGrid (1 / 1000) linLog collisionRay halfSampler 1 = some collisionEvent ∧
      collisionRay.tNear ≤ collisionEvent.t ∧ collisionEvent.t ≤ collisionRay.tFar :=
  ⟨sample_forward_collision_run,
    sample_forward_t_range cornerGrid (1 / 1000) linLog collisionRay halfSampler 1 collisionEvent
      (by norm_num [collisionRay]) (by norm_num [cornerGrid_sigma_t])
      (by norm_num [cornerGrid_invMaxDensity]) halfSampler_range linLog_nonpos
      sample_forward_collision_run⟩

/-- C3: whenever `sample_forward` returns, a returned `t` equal to `ray.tFar` comes with weight
`Spectrum(1)` and position `ray.at(tFar)`, and a returned `t` different from `ray.tFar` comes with
weight `σs / σt` componentwise and position `ray.at(t)`. -/
theorem sample_forward_event (m : GridDensityMedium) (eps : ℚ) (flog : ℚ → ℚ) (ray : Ray)
    (sampler : ℕ → ℚ) (fuel : ℕ) (mit : MediumIntersection)
    (hret : sample_forward m eps flog ray sampler fuel = some mit) :
    (mit.t = ray.tFar →
      mit.weight = Spectrum.const 1 ∧ mit.position = ray.pointAt ray.tFar) ∧
    (mit.t ≠ ray.tFar →
      mit.weight = m.sigma_s.divScalar m.sigma_t ∧ mit.position = ray.pointAt mit.t) :=
  sample_forwardLoop_event m eps flog ray sampler _ _ fuel _ _ mit hret

/-- Witness for `sample_forward_event`: the run on the end-to-end grid that takes one null
collision and then passes through at `tFar = 1`. -/
theorem sample_forward_event_witness :
    sample_forward cornerGrid (1 / 1000) linLog passRay halfSampler 2 = some passEvent ∧
      (passEvent.t = passRay.tFar →
        passEvent.weight = Spectrum.const 1 ∧ passEvent.position = passRay.pointAt passRay.tFar) ∧
      (passEvent.t ≠ passRay.tFar →
        passEvent.weight = cornerGrid.sigma_s.divScalar cornerGrid.sigma_t ∧
          passEvent.position = passRay.pointAt passEvent.t) :=
  ⟨sample_forward_passthrough_run,
    sample_forward_event cornerGrid (1 / 1000) linLog passRay halfSampler 2 passEvent
      sample_forward_passthrough_run⟩

/-- C5: for a grid whose samples are all 0, whenever `Tr` returns it returns `Spectrum(1)`, and
the factor by which a loop iteration multiplies `tr` is exactly 1. -/
theorem Tr_zero_grid (m : GridDensityMedium) (eps : ℚ) (flog : ℚ → ℚ) (initOrigin : Point3f)
    (initDir : Vector3f) (p : Point3f) (w : Vector3f) (tMax : ℚ) (sampler : ℕ → ℚ) (fuel : ℕ)
    (s : Spectrum) (hz : ∀ v ∈ m.density, v = 0)
    (hret : Tr m eps flog initOrigin initDir p w tMax sampler fuel = some s) :
    s = Spectrum.const 1 ∧ ∀ q : Point3f, 1 - max 0 (Density m eps q * m.invMaxDensity) = 1 := by
  constructor
  · obtain ⟨r, hr, hrs⟩ := Option.map_eq_some'.mp hret
    rw [← hrs, TrLoop_zero m eps flog tMax sampler _ _ hz fuel 1 0 0 r hr]
  · intro q
    rw [Density_zero m eps hz]
    simp

/-- Witness for `Tr_zero_grid`: a run on the all-zero 2×2×2 grid that makes one loop iteration. -/
theorem Tr_zero_grid_witness :
    Tr zeroGrid (1 / 1000) linLog ⟨0, 0, 0⟩ ⟨0, 0, 0⟩ ⟨0, 0, 0⟩ ⟨1, 0, 0⟩ 1 halfSampler 2 =
        some (Spectrum.const 1) ∧
      Spectrum.const 1 = Spectrum.const 1 ∧
      ∀ q : Point3f, 1 - max 0 (Density zeroGrid (1 / 1000) q * zeroGrid.invMaxDensity) = 1 :=
  ⟨Tr_zeroGrid_run,
    Tr_zero_grid zeroGrid (1 / 1000) linLog ⟨0, 0, 0⟩ ⟨0, 0, 0⟩ ⟨0, 0, 0⟩ ⟨1, 0, 0⟩ 1 halfSampler 2
      (Spectrum.const 1) zeroGrid_all_zero Tr_zeroGrid_run⟩

/-! ## The interpolant -/

theorem triLearp_eq_cell (m : GridDensityMedium) (pGrid : Point3f) :
    triLearp m pGrid = triLearpCell m ⌊pGrid.x⌋ ⌊pGrid.y⌋ ⌊pGrid.z⌋ (pGrid.x - ⌊pGrid.x⌋)
      (pGrid.y - ⌊pGrid.y⌋) (pGrid.z - ⌊pGrid.z⌋) := rfl

/-- C11: the interpolant is continuous across every lattice plane. `triLearp` is the cell blend
`triLearpCell` at the floors and fractions of its argument; on each axis and each integer plane
`k`, the blend of the cell below with weight 1 on that axis equals the value `triLearp` returns
on the plane, for all values of the other two coordinates and with no condition on the indices
being in range. -/
theorem triLearp_continuous_across_planes (m : GridDensityMedium) (k : ℤ) (a b : ℚ) :
    (∀ pGrid : Point3f, triLearp m pGrid =
        triLearpCell m ⌊pGrid.x⌋ ⌊pGrid.y⌋ ⌊pGrid.z⌋ (pGrid.x - ⌊pGrid.x⌋)
          (pGrid.y - ⌊pGrid.y⌋) (pGrid.z - ⌊pGrid.z⌋)) ∧
      triLearpCell m (k - 1) ⌊a⌋ ⌊b⌋ 1 (a - ⌊a⌋) (b - ⌊b⌋) = triLearp m ⟨k, a, b⟩ ∧
      triLearpCell m ⌊a⌋ (k - 1) ⌊b⌋ (a - ⌊a⌋) 1 (b - ⌊b⌋) = triLearp m ⟨a, k, b⟩ ∧
      triLearpCell m ⌊a⌋ ⌊b⌋ (k - 1) (a - ⌊a⌋) (b - ⌊b⌋) 1 = triLearp m ⟨a, b, k⟩ := by
  refine ⟨fun _ => rfl, ?_, ?_, ?_⟩
  · simp only [triLearp, triLearpCell, Int.floor_intCast, sub_self, sub_add_cancel]
    ring
  · simp only [triLearp, triLearpCell, Int.floor_intCast, sub_self, sub_add_cancel]
    ring
  · simp only [triLearp, triLearpCell, Int.floor_intCast, sub_self, sub_add_cancel]
    ring

/-- C16: in exact arithmetic the x-then-y-then-z blend of `triLearp` equals the standard
trilinear formula, the sum over the eight corners of `wx * wy * wz * queryDensity(corner)`; the
eight weights are non-negative and sum to 1; and blending the axes in any of the other five
orders gives the same value. -/
theorem triLearp_eq_standard_formula (m : GridDensityMedium) (pGrid : Point3f) :
    triLearp m pGrid = triLearp_spec m pGrid ∧
      (∀ ux uy uz : Bool, 0 ≤ cornerWeight pGrid ux uy uz) ∧
      (corners.map fun c => cornerWeight pGrid c.1 c.2.1 c.2.2).sum = 1 ∧
      triLearp m pGrid = blendAlong (pGrid.z - ⌊pGrid.z⌋) (fun uz =>
        blendAlong (pGrid.x - ⌊pGrid.x⌋) (fun ux =>
          blendAlong (pGrid.y - ⌊pGrid.y⌋) (fun uy => cornerSample m pGrid ux uy uz))) ∧
      triLearp m pGrid = blendAlong (pGrid.y - ⌊pGrid.y⌋) (fun uy =>
        blendAlong (pGrid.z - ⌊pGrid.z⌋) (fun uz =>
          blendAlong (pGrid.x - ⌊pGrid.x⌋) (fun ux => cornerSample m pGrid ux uy uz))) ∧
      triLearp m pGrid = blendAlong (pGrid.y - ⌊pGrid.y⌋) (fun uy =>
        blendAlong (pGrid.x - ⌊pGrid.x⌋) (fun ux =>
          blendAlong (pGrid.z - ⌊pGrid.z⌋) (fun uz => cornerSample m pGrid ux uy uz))) ∧
      triLearp m pGrid = blendAlong (pGrid.x - ⌊pGrid.x⌋) (fun ux =>
        blendAlong (pGrid.y - ⌊pGrid.y⌋) (fun uy =>
          blendAlong (pGrid.z - ⌊pGrid.z⌋) (fun uz => cornerSample m pGrid ux uy uz))) ∧
      triLearp m pGrid = blendAlong (pGrid.x - ⌊pGrid.x⌋) (fun ux =>
        blendAlong (pGrid.z - ⌊pGrid.z⌋) (fun uz =>
          blendAlong (pGrid.y - ⌊pGrid.y⌋) (fun uy => cornerSample m pGrid ux uy uz))) := by
  have ax := fracWeight_nonneg pGrid.x
  have bx := (fracWeight_lt_one pGrid.x).le
  have ay := fracWeight_nonneg pGrid.y
  have hy := (fracWeight_lt_one pGrid.y).le
  have az := fracWeight_nonneg pGrid.z
  have bz := (fracWeight_lt_one pGrid.z).le
  refine ⟨?_, ?_, ?_, ?_, ?_, ?_, ?_, ?_⟩
  · simp only [triLearp, triLearp_spec, corners, cornerWeight, cornerSample, axisWeight,
      axisIndex, List.map, List.sum_cons, List.sum_nil]
    simp only [if_true, if_false, Bool.false_eq_true]
    ring
  · intro ux uy uz
    have wx : 0 ≤ axisWeight (pGrid.x - ⌊pGrid.x⌋) ux := by
      unfold axisWeight; split <;> linarith
    have wy : 0 ≤ axisWeight (pGrid.y - ⌊pGrid.y⌋) uy := by
      unfold axisWeight; split <;> linarith
    have wz : 0 ≤ axisWeight (pGrid.z - ⌊pGrid.z⌋) uz := by
      unfold axisWeight; split <;> linarith
    exact mul_nonneg (mul_nonneg wx wy) wz
  · simp only [corners, cornerWeight, axisWeight, List.map, List.sum_cons, List.sum_nil]
    simp only [if_true, if_false, Bool.false_eq_true]
    ring
  all_goals
    simp only [triLearp, blendAlong, cornerSample, axisIndex, if_true, if_false,
      Bool.false_eq_true]
    ring

/-! ## Corners, indices, majorant, termination -/

theorem Density_cornerGrid_near {eps : ℚ} (h0 : 0 < eps) (h1 : eps < 1 / 2) :
    Density cornerGrid eps ⟨0, 0, 0⟩ = 8 * eps ^ 3 := by
  have hc : clampCoord eps 0 = eps := by
    unfold clampCoord
    rw [min_eq_right (by linarith), max_eq_right h0.le]
  have hf : ⌊eps * 2⌋ = 0 := by
    rw [Int.floor_eq_iff]
    constructor
    · simp only [Int.cast_zero]; linarith
    · simp only [Int.cast_zero]; linarith
  simp only [Density, Density_pGrid, triLearp, hc, cornerGrid_query]
  simp only [show ((cornerGrid.nx : ℤ) : ℚ) = 2 by simp [cornerGrid],
    show ((cornerGrid.ny : ℤ) : ℚ) = 2 by simp [cornerGrid],
    show ((cornerGrid.nz : ℤ) : ℚ) = 2 by simp [cornerGrid], hf]
  norm_num
  ring

/-- C14: on the end-to-end grid with `0 < EPSILON ≤ 1/1000`, `Density` at `p = (0,0,0)` is
approximately 0: not negative and at most 0.01 (it equals `8·EPSILON³`). -/
theorem Density_near_corner (eps : ℚ) (h0 : 0 < eps) (h1 : eps ≤ 1 / 1000) :
    0 ≤ Density cornerGrid eps ⟨0, 0, 0⟩ ∧ Density cornerGrid eps ⟨0, 0, 0⟩ ≤ 1 / 100 ∧
      Density cornerGrid eps ⟨0, 0, 0⟩ = 8 * eps ^ 3 := by
  have hnear := Density_cornerGrid_near h0 (by linarith : eps < 1 / 2)
  have h2 : eps ^ 3 ≤ (1 / 1000) ^ 3 := pow_le_pow_left₀ h0.le h1 3
  rw [hnear]
  refine ⟨by positivity, by linarith, rfl⟩

/-- Witness for `Density_near_corner` at `EPSILON = 1/1000`. -/
theorem Density_near_corner_witness :
    0 ≤ Density cornerGrid (1 / 1000) ⟨0, 0, 0⟩ ∧
      Density cornerGrid (1 / 1000) ⟨0, 0, 0⟩ ≤ 1 / 100 ∧
      Density cornerGrid (1 / 1000) ⟨0, 0, 0⟩ = 8 * (1 / 1000 : ℚ) ^ 3 :=
  Density_near_corner (1 / 1000) (by norm_num) (by norm_num)

theorem queryDensity_eq_flatIndex (m : GridDensityMedium) (x y z : ℤ)
    (h : 0 ≤ x ∧ x < m.nx ∧ 0 ≤ y ∧ y < m.ny ∧ 0 ≤ z ∧ z < m.nz) :
    queryDensity m x y z = m.density.getD (flatIndex m x y z).toNat 0 := by
  unfold queryDensity flatIndex
  rw [if_pos h]

theorem flatIndex_inj {ny nz x y z x' y' z' : ℤ} (hy0 : 0 ≤ y) (hy : y < ny) (hz0 : 0 ≤ z)
    (hz : z < nz) (hy0' : 0 ≤ y') (hy' : y' < ny) (hz0' : 0 ≤ z') (hz' : z' < nz)
    (h : x * (ny * nz) + y * nz + z = x' * (ny * nz) + y' * nz + z') :
    x = x' ∧ y = y' ∧ z = z' := by
  have key : ∀ {n a b c d : ℤ}, 0 ≤ b → b < n → 0 ≤ d → d < n → a * n + b = c * n + d →
      a = c ∧ b = d := by
    intro n a b c d hb0 hb hd0 hd he
    have hac : a = c := by
      rcases lt_trichotomy a c with hlt | heq | hgt
      · exfalso
        have h1 : (a + 1) * n ≤ c * n := mul_le_mul_of_nonneg_right (by omega) (by omega)
        nlinarith
      · exact heq
      · exfalso
        have h1 : (c + 1) * n ≤ a * n := mul_le_mul_of_nonneg_right (by omega) (by omega)
        nlinarith
    subst hac
    exact ⟨rfl, by linarith⟩
  have h2 : (x * ny + y) * nz + z = (x' * ny + y') * nz + z' := by
    have e1 : (x * ny + y) * nz + z = x * (ny * nz) + y * nz + z := by ring
    have e2 : (x' * ny + y') * nz + z' = x' * (ny * nz) + y' * nz + z' := by ring
    rw [e1, e2, h]
  obtain ⟨h3, h4⟩ := key hz0 hz hz0' hz' h2
  obtain ⟨h5, h6⟩ := key hy0 hy hy0' hy' h3
  exact ⟨h5, h6, h4⟩

/-- C17: for a medium laid out as the constructor does (`nynz = ny·nz`) and index triples inside
`[0,nx)×[0,ny)×[0,nz)`, the flat index `x·ny·nz + y·nz + z` lies in `[0, nx·ny·nz)`, the size of
the array the constructor allocates, it is the position `queryDensity` reads, and two in-range
triples with the same flat index are the same triple. -/
theorem flatIndex_in_bounds_and_injective (m : GridDensityMedium) (x y z x' y' z' : ℤ)
    (hnynz : m.nynz = m.ny * m.nz)
    (h : 0 ≤ x ∧ x < m.nx ∧ 0 ≤ y ∧ y < m.ny ∧ 0 ≤ z ∧ z < m.nz)
    (h' : 0 ≤ x' ∧ x' < m.nx ∧ 0 ≤ y' ∧ y' < m.ny ∧ 0 ≤ z' ∧ z' < m.nz) :
    (0 ≤ flatIndex m x y z ∧ flatIndex m x y z < m.nx * m.ny * m.nz) ∧
      queryDensity m x y z = m.density.getD (flatIndex m x y z).toNat 0 ∧
      (flatIndex m x y z = flatIndex m x' y' z' → x = x' ∧ y = y' ∧ z = z') := by
  obtain ⟨hx0, hx, hy0, hy, hz0, hz⟩ := h
  obtain ⟨_, _, hy0', hy', hz0', hz'⟩ := h'
  refine ⟨?_, queryDensity_eq_flatIndex m x y z ⟨hx0, hx, hy0, hy, hz0, hz⟩, ?_⟩
  · unfold flatIndex
    rw [hnynz]
    exact flatIndex_lt hx0 hx hy0 hy hz0 hz
  · unfold flatIndex
    rw [hnynz]
    exact flatIndex_inj hy0 hy hz0 hz hy0' hy' hz0' hz'

/-- Witness for `flatIndex_in_bounds_and_injective` on the end-to-end grid, for the lattice
points (1,0,1) and (0,1,1). -/
theorem flatIndex_in_bounds_and_injective_witness :
    (0 ≤ flatIndex cornerGrid 1 0 1 ∧
        flatIndex cornerGrid 1 0 1 < cornerGrid.nx * cornerGrid.ny * cornerGrid.nz) ∧
      queryDensity cornerGrid 1 0 1 =
        cornerGrid.density.getD (flatIndex cornerGrid 1 0 1).toNat 0 ∧
      (flatIndex cornerGrid 1 0 1 = flatIndex cornerGrid 0 1 1 →
        (1 : ℤ) = 0 ∧ (0 : ℤ) = 1 ∧ (1 : ℤ) = 1) :=
  flatIndex_in_bounds_and_injective cornerGrid 1 0 1 0 1 1 (by decide) (by decide) (by decide)

theorem toLocalPoint_eq (p : Point3f) (d : Vector3f) (transform : Transform) :
    (toLocalOriginDir p d transform).1 = toLocalPoint p transform := rfl

/-- For affine inverse matrices, the unit-cube image of the world point `oldOrig + t·oldDir` is
`origin + (t/2)·dir`: the direction returned by `toLocalOriginDir` is twice the unit-cube
direction. -/
theorem toLocalPoint_along_ray (transform : Transform) (hs : transform.invScale.IsAffine)
    (hr : transform.invRotate.IsAffine) (ht : transform.invTranslate.IsTranslation)
    (oldOrig : Point3f) (oldDir : Vector3f) (t : ℚ) :
    toLocalPoint (oldOrig.addVec (Vector3f.scale t oldDir)) transform =
      (toLocalOriginDir oldOrig oldDir transform).1.addVec
        (Vector3f.scale (t / 2) (toLocalOriginDir oldOrig oldDir transform).2) := by
  obtain ⟨tT, tR, tS⟩ := transform
  obtain ⟨⟨t00, t01, t02, t03⟩, ⟨t10, t11, t12, t13⟩, ⟨t20, t21, t22, t23⟩, t3⟩ := tT
  obtain ⟨r0, r1, r2, r3⟩ := tR
  obtain ⟨s0, s1, s2, s3⟩ := tS
  simp only [Mat4f.IsAffine] at hs hr
  simp only [Mat4f.IsTranslation] at ht
  obtain ⟨⟨h00, h01, h02⟩, ⟨h10, h11, h12⟩, ⟨h20, h21, h22⟩, h3⟩ := ht
  subst hs hr h3 h00 h01 h02 h10 h11 h12 h20 h21 h22
  obtain ⟨r00, r01, r02, r03⟩ := r0
  obtain ⟨r10, r11, r12, r13⟩ := r1
  obtain ⟨r20, r21, r22, r23⟩ := r2
  obtain ⟨s00, s01, s02, s03⟩ := s0
  obtain ⟨s10, s11, s12, s13⟩ := s1
  obtain ⟨s20, s21, s22, s23⟩ := s2
  simp only [toLocalPoint, toLocalOriginDir, Mat4f.mul, Mat4f.rowMul, Mat4f.col, Mat4f.mulVec,
    Vec4f.dot, Point3f.addVec, Vector3f.scale]
  norm_num
  refine ⟨?_, ?_, ?_⟩ <;> ring

/-- C13: the claim, and the doc comment of `toLocalOriginDir`, say that the unit-cube image of
`oldOrig + t·oldDir` is `origin + t·dir`. The code halves the origin (lines 95 to 97) but not the
direction (lines 98 to 100): with no transform, `oldOrig = (0,0,0)`, `oldDir = (1,0,0)` and
`t = 1`, the image of the world point is `(1, 1/2, 1/2)` while `origin + t·dir` is
`(3/2, 1/2, 1/2)`; for every affine transform the image is `origin + (t/2)·dir`. -/
theorem toLocalOriginDir_direction_not_halved :
    toLocalPoint ((⟨0, 0, 0⟩ : Point3f).addVec (Vector3f.scale 1 ⟨1, 0, 0⟩)) Transform.identity =
        ⟨1, 1 / 2, 1 / 2⟩ ∧
      (toLocalOriginDir ⟨0, 0, 0⟩ ⟨1, 0, 0⟩ Transform.identity).1.addVec
          (Vector3f.scale 1 (toLocalOriginDir ⟨0, 0, 0⟩ ⟨1, 0, 0⟩ Transform.identity).2) =
        ⟨3 / 2, 1 / 2, 1 / 2⟩ ∧
      toLocalPoint ((⟨0, 0, 0⟩ : Point3f).addVec (Vector3f.scale 1 ⟨1, 0, 0⟩))
          Transform.identity ≠
        (toLocalOriginDir ⟨0, 0, 0⟩ ⟨1, 0, 0⟩ Transform.identity).1.addVec
          (Vector3f.scale 1 (toLocalOriginDir ⟨0, 0, 0⟩ ⟨1, 0, 0⟩ Transform.identity).2) ∧
      ∀ (transform : Transform) (oldOrig : Point3f) (oldDir : Vector3f) (t : ℚ),
        transform.invScale.IsAffine → transform.invRotate.IsAffine →
        transform.invTranslate.IsTranslation →
        toLocalPoint (oldOrig.addVec (Vector3f.scale t oldDir)) transform =
          (toLocalOriginDir oldOrig oldDir transform).1.addVec
            (Vector3f.scale (t / 2) (toLocalOriginDir oldOrig oldDir transform).2) := by
  have h1 : toLocalPoint ((⟨0, 0, 0⟩ : Point3f).addVec (Vector3f.scale 1 ⟨1, 0, 0⟩))
      Transform.identity = ⟨1, 1 / 2, 1 / 2⟩ := by
    simp only [toLocalPoint, toLocalOriginDir_identity, Point3f.addVec, Vector3f.scale]
    norm_num
  have h2 : (toLocalOriginDir ⟨0, 0, 0⟩ ⟨1, 0, 0⟩ Transform.identity).1.addVec
      (Vector3f.scale 1 (toLocalOriginDir ⟨0, 0, 0⟩ ⟨1, 0, 0⟩ Transform.identity).2) =
        ⟨3 / 2, 1 / 2, 1 / 2⟩ := by
    simp only [toLocalOriginDir_identity, Point3f.addVec, Vector3f.scale]
    norm_num
  refine ⟨h1, h2, ?_, ?_⟩
  · rw [h1, h2]
    intro h
    have hx := congrArg Point3f.x h
    norm_num at hx
  · intro transform oldOrig oldDir t hs hr ht
    exact toLocalPoint_along_ray transform hs hr ht oldOrig oldDir t

/-! ## Octree traversal against the brute-force scan -/

theorem Good_none (shapes : List Primitive) (ray : Ray) : Good shapes ray none := by
  intro f h
  cases h

theorem currentFar_le {shapes : List Primitive} {ray : Ray}
    (hl : ∀ p ∈ shapes, p.Lawful) {best : Option Found} (hg : Good shapes ray best) :
    currentFar ray best ≤ ray.tFar := by
  cases best with
  | none => exact le_refl _
  | some f =>
    obtain ⟨i, p, h, hp, hh, rfl⟩ := hg f rfl
    exact ((hl p (List.getElem?_mem hp)).inWindow ray h hh).2

theorem intersect_shrunk {shapes : List Primitive} {ray : Ray}
    (hl : ∀ p ∈ shapes, p.Lawful) {best : Option Found} (hg : Good shapes ray best)
    {i : ℕ} {p : Primitive} (hp : shapes[i]? = some p) :
    p.intersect (ray.withFar (currentFar ray best)) =
      (p.intersect ray).bind fun h => if h.t ≤ currentFar ray best then some h else none :=
  (hl p (List.getElem?_mem hp)).shrink ray _ (currentFar_le hl hg)

theorem testPrimitive_good {shapes : List Primitive} {ray : Ray}
    (hl : ∀ p ∈ shapes, p.Lawful) {best : Option Found} (hg : Good shapes ray best) (i : ℕ) :
    Good shapes ray (testPrimitive shapes ray best i) := by
  unfold testPrimitive
  cases hp : shapes[i]? with
  | none => exact hg
  | some p =>
    simp only
    rw [intersect_shrunk hl hg hp]
    cases hh : p.intersect ray with
    | none => exact hg
    | some h =>
      simp only [Option.some_bind]
      by_cases hle : h.t ≤ currentFar ray best
      · rw [if_pos hle]
        have hit : IsHit shapes ray ⟨p.geomID, p.primID, h.u, h.v, h.t⟩ :=
          ⟨i, p, h, hp, hh, rfl⟩
        cases best with
        | none =>
          intro f hf
          cases hf
          exact hit
        | some g =>
          simp only
          by_cases hlt : h.t < g.t
          · rw [if_pos hlt]
            intro f hf
            cases hf
            exact hit
          · rw [if_neg hlt]
            exact hg
      · rw [if_neg hle]
        exact hg

theorem testPrimitive_mono {shapes : List Primitive} {ray : Ray} {best : Option Found}
    (i : ℕ) {t : ℚ} (hr : Reaches best t) : Reaches (testPrimitive shapes ray best i) t := by
  obtain ⟨g, rfl, hgt⟩ := hr
  unfold testPrimitive
  cases shapes[i]? with
  | none => exact ⟨g, rfl, hgt⟩
  | some p =>
    simp only
    cases p.intersect (ray.withFar (currentFar ray (some g))) with
    | none => exact ⟨g, rfl, hgt⟩
    | some h =>
      simp only
      by_cases hlt : h.t < g.t
      · rw [if_pos hlt]
        exact ⟨_, rfl, le_trans hlt.le hgt⟩
      · rw [if_neg hlt]
        exact ⟨g, rfl, hgt⟩

theorem testPrimitive_cover {shapes : List Primitive} {ray : Ray}
    (hl : ∀ p ∈ shapes, p.Lawful) {best : Option Found} (hg : Good shapes ray best)
    {i : ℕ} {p : Primitive} {h : Hit} (hp : shapes[i]? = some p)
    (hh : p.intersect ray = some h) : Reaches (testPrimitive shapes ray best i) h.t := by
  unfold testPrimitive
  simp only [hp]
  rw [intersect_shrunk hl hg hp, hh]
  simp only [Option.some_bind]
  cases best with
  | none =>
    have hle : h.t ≤ currentFar ray none := ((hl p (List.getElem?_mem hp)).inWindow ray h hh).2
    rw [if_pos hle]
    exact ⟨_, rfl, le_refl _⟩
  | some g =>
    by_cases hle : h.t ≤ currentFar ray (some g)
    · rw [if_pos hle]
      simp only
      by_cases hlt : h.t < g.t
      · rw [if_pos hlt]
        exact ⟨_, rfl, le_refl _⟩
      · rw [if_neg hlt]
        exact ⟨g, rfl, not_lt.mp hlt⟩
    · rw [if_neg hle]
      exact ⟨g, rfl, (not_le.mp hle).le⟩

/-- A fold of state updates that keep the state good and never lose a reached distance reaches
`t` as soon as one of the updates does so from every good state. -/
theorem foldl_reaches {α : Type} {shapes : List Primitive} {ray : Ray}
    (g : Option Found → α → Option Found)
    (hgood : ∀ b a, Good shapes ray b → Good shapes ray (g b a))
    (hmono : ∀ b a t, Good shapes ray b → Reaches b t → Reaches (g b a) t) (l : List α) :
    ∀ best, Good shapes ray best →
      Good shapes ray (l.foldl g best) ∧
      (∀ t, Reaches best t → Reaches (l.foldl g best) t) ∧
      (∀ a ∈ l, ∀ t, (∀ b, Good shapes ray b → Reaches (g b a) t) →
        Reaches (l.foldl g best) t) := by
  induction l with
  | nil =>
    intro best hg
    exact ⟨hg, fun _ h => h, fun a ha => absurd ha (List.not_mem_nil a)⟩
  | cons x xs ih =>
    intro best hg
    obtain ⟨i1, i2, i3⟩ := ih (g best x) (hgood best x hg)
    refine ⟨i1, fun t ht => i2 t (hmono best x t hg ht), ?_⟩
    intro a ha t hcov
    rcases List.mem_cons.mp ha with rfl | hmem
    · exact i2 t (hcov best hg)
    · exact i3 a hmem t hcov

theorem scan_spec {shapes : List Primitive} {ray : Ray} (hl : ∀ p ∈ shapes, p.Lawful)
    (l : List ℕ) (best : Option Found) (hg : Good shapes ray best) :
    Good shapes ray (l.foldl (testPrimitive shapes ray) best) ∧
      (∀ t, Reaches best t → Reaches (l.foldl (testPrimitive shapes ray) best) t) ∧
      (∀ i ∈ l, ∀ p h, shapes[i]? = some p → p.intersect ray = some h →
        Reaches (l.foldl (testPrimitive shapes ray) best) h.t) := by
  obtain ⟨i1, i2, i3⟩ := foldl_reaches (testPrimitive shapes ray)
    (fun b a hb => testPrimitive_good hl hb a) (fun b a t _ hr => testPrimitive_mono a hr)
    l best hg
  exact ⟨i1, i2, fun i hi p h hp hh =>
    i3 i hi h.t (fun b hb => testPrimitive_cover hl hb hp hh)⟩

theorem halfRange_cover {lo hi x : ℚ} (h1 : lo ≤ x) (h2 : x ≤ hi) :
    ∃ u : Bool, (halfRange lo hi u).1 ≤ x ∧ x ≤ (halfRange lo hi u).2 := by
  by_cases hx : x ≤ (lo + hi) / 2
  · exact ⟨false, by simpa [halfRange] using h1, by simpa [halfRange] using hx⟩
  · exact ⟨true, by simpa [halfRange] using (not_le.mp hx).le, by simpa [halfRange] using h2⟩

theorem octant_cover {b : AABB} {q : Point3f} (h : b.contains q) :
    ∃ ux uy uz, (b.octant ux uy uz).contains q := by
  obtain ⟨⟨x1, x2⟩, ⟨y1, y2⟩, ⟨z1, z2⟩⟩ := h
  obtain ⟨ux, hx⟩ := halfRange_cover x1 x2
  obtain ⟨uy, hy⟩ := halfRange_cover y1 y2
  obtain ⟨uz, hz⟩ := halfRange_cover z1 z2
  exact ⟨ux, uy, uz, hx, hy, hz⟩

theorem overlap_of_common_point {a b : AABB} {q : Point3f} (ha : a.contains q)
    (hb : b.contains q) : a.overlap b = true := by
  obtain ⟨⟨a1, a2⟩, ⟨a3, a4⟩, ⟨a5, a6⟩⟩ := ha
  obtain ⟨⟨b1, b2⟩, ⟨b3, b4⟩, ⟨b5, b6⟩⟩ := hb
  unfold AABB.overlap
  rw [decide_eq_true_eq]
  exact ⟨⟨le_trans a1 b2, le_trans b1 a2⟩, ⟨le_trans a3 b4, le_trans b3 a4⟩,
    ⟨le_trans a5 b6, le_trans b5 a6⟩⟩

theorem slabAxis_sound {o d lo hi t : ℚ} {w : ℚ × ℚ} (hw : w.1 ≤ t ∧ t ≤ w.2)
    (h1 : lo ≤ o + t * d) (h2 : o + t * d ≤ hi) :
    ∃ w', slabAxis o d lo hi w = some w' ∧ w'.1 ≤ t ∧ t ≤ w'.2 := by
  unfold slabAxis
  by_cases hd : d = 0
  · rw [if_pos hd]
    rw [hd, mul_zero, add_zero] at h1 h2
    rw [if_pos ⟨h1, h2⟩]
    exact ⟨w, rfl, hw⟩
  · rw [if_neg hd]
    have key : min ((lo - o) / d) ((hi - o) / d) ≤ t ∧ t ≤ max ((lo - o) / d) ((hi - o) / d) := by
      rcases lt_or_gt_of_ne hd with hneg | hpos
      · constructor
        · apply le_trans (min_le_right _ _)
          rw [div_le_iff_of_neg hneg]
          linarith
        · apply le_trans _ (le_max_left _ _)
          rw [le_div_iff_of_neg hneg]
          linarith
      · constructor
        · apply le_trans (min_le_left _ _)
          rw [div_le_iff₀ hpos]
          linarith
        · apply le_trans _ (le_max_right _ _)
          rw [le_div_iff₀ hpos]
          linarith
    have hlo : max w.1 (min ((lo - o) / d) ((hi - o) / d)) ≤ t := max_le hw.1 key.1
    have hhi : t ≤ min w.2 (max ((lo - o) / d) ((hi - o) / d)) := le_min hw.2 key.2
    simp only
    rw [if_pos (le_trans hlo hhi)]
    exact ⟨_, rfl, hlo, hhi⟩

theorem rayIntersect_sound {b : AABB} {ray : Ray} {t : ℚ} (h1 : ray.tNear ≤ t)
    (h2 : t ≤ ray.tFar) (hb : b.contains (ray.pointAt t)) : b.rayIntersect ray = true := by
  obtain ⟨⟨x1, x2⟩, ⟨y1, y2⟩, ⟨z1, z2⟩⟩ := hb
  simp only [Ray.pointAt, Point3f.addVec, Vector3f.scale] at x1 x2 y1 y2 z1 z2
  obtain ⟨w1, e1, hw1⟩ := slabAxis_sound (w := (ray.tNear, ray.tFar)) ⟨h1, h2⟩ x1 x2
  obtain ⟨w2, e2, hw2⟩ := slabAxis_sound (w := w1) hw1 y1 y2
  obtain ⟨w3, e3, _⟩ := slabAxis_sound (w := w2) hw2 z1 z2
  simp only [AABB.rayIntersect, e1, Option.some_bind, e2, e3, Option.isSome_some]

theorem recursiveBuild_box (shapes : List Primitive) (leafMax depth : ℕ) (aabb : AABB)
    (buf : List ℕ) : (recursiveBuild shapes leafMax depth aabb buf).box = aabb := by
  cases depth with
  | zero => rfl
  | succ d =>
    simp only [recursiveBuild]
    split <;> rfl

theorem leaf_spec {shapes : List Primitive} {ray : Ray} (hl : ∀ p ∈ shapes, p.Lawful)
    (order : Ray → AABB → List (Bool × Bool × Bool)) (aabb : AABB) (buf : List ℕ)
    (best : Option Found) (hg : Good shapes ray best) :
    Good shapes ray (node_rayIntersect shapes order ray (OctreeNode.leaf aabb buf) best) ∧
      (∀ t, Reaches best t →
        Reaches (node_rayIntersect shapes order ray (OctreeNode.leaf aabb buf) best) t) ∧
      (∀ i ∈ buf, ∀ p h, shapes[i]? = some p → p.intersect ray = some h →
        aabb.contains (ray.pointAt h.t) →
        Reaches (node_rayIntersect shapes order ray (OctreeNode.leaf aabb buf) best) h.t) := by
  obtain ⟨i1, i2, i3⟩ := scan_spec hl buf best hg
  exact ⟨i1, i2, fun i hi p h hp hh _ => i3 i hi p h hp hh⟩

theorem node_spec {shapes : List Primitive} {ray : Ray} (hl : ∀ p ∈ shapes, p.Lawful)
    (order : Ray → AABB → List (Bool × Bool × Bool))
    (horder : ∀ (r : Ray) (b : AABB) (k : Bool × Bool × Bool), k ∈ order r b)
    (leafMax depth : ℕ) :
    ∀ (aabb : AABB) (buf : List ℕ) (best : Option Found), Good shapes ray best →
      Good shapes ray
        (node_rayIntersect shapes order ray (recursiveBuild shapes leafMax depth aabb buf) best) ∧
      (∀ t, Reaches best t → Reaches
        (node_rayIntersect shapes order ray (recursiveBuild shapes leafMax depth aabb buf) best)
        t) ∧
      (∀ i ∈ buf, ∀ p h, shapes[i]? = some p → p.intersect ray = some h →
        aabb.contains (ray.pointAt h.t) → Reaches
        (node_rayIntersect shapes order ray (recursiveBuild shapes leafMax depth aabb buf) best)
        h.t) := by
  induction depth with
  | zero =>
    intro aabb buf best hg
    exact leaf_spec hl order aabb buf best hg
  | succ d ih =>
    intro aabb buf best hg
    simp only [recursiveBuild]
    split
    · exact leaf_spec hl order aabb buf best hg
    · simp only [node_rayIntersect, recursiveBuild_box]
      obtain ⟨i1, i2, i3⟩ := @foldl_reaches _ shapes ray
        (fun b (k : Bool × Bool × Bool) =>
          if (aabb.octant k.1 k.2.1 k.2.2).rayIntersect (ray.withFar (currentFar ray b)) then
            node_rayIntersect shapes order ray
              (recursiveBuild shapes leafMax d (aabb.octant k.1 k.2.1 k.2.2)
                (buf.filter fun i =>
                  match shapes[i]? with
                  | some p => (aabb.octant k.1 k.2.1 k.2.2).overlap p.box
                  | none => false)) b
          else b)
        (by
          intro b k hb
          simp only
          split
          · exact (ih _ _ b hb).1
          · exact hb)
        (by
          intro b k t hb hr
          simp only
          split
          · exact (ih _ _ b hb).2.1 t hr
          · exact hr)
        (order ray aabb) best hg
      refine ⟨i1, i2, ?_⟩
      intro i hi p h hp hh hin
      obtain ⟨ux, uy, uz, hoct⟩ := octant_cover hin
      have hlaw := hl p (List.getElem?_mem hp)
      apply i3 (ux, uy, uz) (horder ray aabb (ux, uy, uz)) h.t
      intro b hb
      simp only
      split
      · apply (ih _ _ b hb).2.2 i _ p h hp hh hoct
        rw [List.mem_filter]
        refine ⟨hi, ?_⟩
        simp only [hp]
        exact overlap_of_common_point hoct (hlaw.inBox ray h hh)
      · rename_i hno
        have hnear := (hlaw.inWindow ray h hh).1
        have hfar : currentFar ray b < h.t := by
          by_contra hcon
          exact hno (@rayIntersect_sound _ (ray.withFar (currentFar ray b)) _ hnear
            (not_lt.mp hcon) hoct)
        cases b with
        | none =>
          exact absurd (hlaw.inWindow ray h hh).2 (not_le.mpr hfar)
        | some f =>
          exact ⟨f, rfl, hfar.le⟩

theorem xPlate_lawful (geomID primID : ℤ) (c y0 y1 z0 z1 : ℚ) :
    (xPlate geomID primID c y0 y1 z0 z1).Lawful := by
  constructor
  · intro ray h hh
    simp only [xPlate] at hh
    split at hh
    · cases hh
    · split at hh
      · rename_i hc
        cases hh
        exact hc.1
      · cases hh
  · intro ray h hh
    simp only [xPlate] at hh
    split at hh
    · cases hh
    · rename_i hd
      split at hh
      · rename_i hc
        cases hh
        refine ⟨⟨?_, ?_⟩, hc.2.1, hc.2.2⟩
        · simp only [xPlate, Ray.pointAt, Point3f.addVec, Vector3f.scale]
          rw [div_mul_cancel₀ _ hd]
          linarith
        · simp only [xPlate, Ray.pointAt, Point3f.addVec, Vector3f.scale]
          rw [div_mul_cancel₀ _ hd]
          linarith
      · cases hh
  · intro ray tFar hfar
    simp only [xPlate, Ray.withFar, Ray.pointAt]
    by_cases hd : ray.direction.x = 0
    · simp only [if_pos hd, Option.none_bind]
    · simp only [if_neg hd]
      by_cases hc : (ray.tNear ≤ (c - ray.origin.x) / ray.direction.x ∧
          (c - ray.origin.x) / ray.direction.x ≤ ray.tFar) ∧
          (y0 ≤ (ray.origin.addVec
            (Vector3f.scale ((c - ray.origin.x) / ray.direction.x) ray.direction)).y ∧
            (ray.origin.addVec
              (Vector3f.scale ((c - ray.origin.x) / ray.direction.x) ray.direction)).y ≤ y1) ∧
          (z0 ≤ (ray.origin.addVec
            (Vector3f.scale ((c - ray.origin.x) / ray.direction.x) ray.direction)).z ∧
            (ray.origin.addVec
              (Vector3f.scale ((c - ray.origin.x) / ray.direction.x) ray.direction)).z ≤ z1)
      · rw [if_pos hc]
        simp only [Option.some_bind]
        by_cases ht : (c - ray.origin.x) / ray.direction.x ≤ tFar
        · rw [if_pos ht, if_pos ⟨⟨hc.1.1, ht⟩, hc.2⟩]
        · rw [if_neg ht, if_neg]
          exact fun hcon => ht hcon.1.2
      · rw [if_neg hc]
        simp only [Option.none_bind]
        rw [if_neg]
        exact fun hcon => hc ⟨⟨hcon.1.1, le_trans hcon.1.2 hfar⟩, hcon.2⟩

theorem testPrimitive_stable {shapes : List Primitive} {ray : Ray}
    (hl : ∀ p ∈ shapes, p.Lawful) {f : Found} (hg : Good shapes ray (some f))
    (hmin : ∀ g, IsHit shapes ray g → f.t ≤ g.t) (i : ℕ) :
    testPrimitive shapes ray (some f) i = some f := by
  unfold testPrimitive
  cases hp : shapes[i]? with
  | none => rfl
  | some p =>
    simp only
    rw [intersect_shrunk hl hg hp]
    cases hh : p.intersect ray with
    | none => rfl
    | some h =>
      simp only [Option.some_bind]
      have hge : f.t ≤ h.t := hmin ⟨p.geomID, p.primID, h.u, h.v, h.t⟩ ⟨i, p, h, hp, hh, rfl⟩
      by_cases hle : h.t ≤ currentFar ray (some f)
      · rw [if_pos hle]
        simp only
        rw [if_neg (not_lt.mpr hge)]
      · rw [if_neg hle]

theorem foldl_stable {α : Type} (g : Option Found → α → Option Found) (f : Found)
    (hstab : ∀ a, g (some f) a = some f) (l : List α) : l.foldl g (some f) = some f := by
  induction l with
  | nil => rfl
  | cons x xs ih => rw [List.foldl_cons, hstab x, ih]

theorem node_stable {shapes : List Primitive} {ray : Ray}
    (order : Ray → AABB → List (Bool × Bool × Bool))
    (hl : ∀ p ∈ shapes, p.Lawful) {f : Found} (hg : Good shapes ray (some f))
    (hmin : ∀ g, IsHit shapes ray g → f.t ≤ g.t) (node : OctreeNode) :
    node_rayIntersect shapes order ray node (some f) = some f := by
  induction node with
  | leaf box prims =>
    simp only [node_rayIntersect]
    exact foldl_stable _ f (fun i => testPrimitive_stable hl hg hmin i) prims
  | inner box children ih =>
    simp only [node_rayIntersect]
    apply foldl_stable
    intro k
    simp only [ih, ite_self]

theorem tieShapes_lawful : ∀ p ∈ tieShapes, p.Lawful := by
  intro p hp
  simp only [tieShapes, List.mem_cons, List.mem_singleton, List.not_mem_nil, or_false] at hp
  rcases hp with rfl | rfl <;> exact xPlate_lawful _ _ _ _ _ _ _

theorem tie_hit_narrow :
    (xPlate 0 0 (3 / 2) (5 / 4) (7 / 4) 0 1).intersect tieRay = some ⟨1, 3 / 2, 1 / 2⟩ := by
  simp only [xPlate, tieRay, Ray.pointAt, Point3f.addVec, Vector3f.scale]
  norm_num

theorem tie_hit_wide :
    (xPlate 0 1 (3 / 2) 0 2 0 1).intersect tieRay = some ⟨1, 3 / 2, 1 / 2⟩ := by
  simp only [xPlate, tieRay, Ray.pointAt, Point3f.addVec, Vector3f.scale]
  norm_num

theorem tie_hits_at_one (g : Found) (hg : IsHit tieShapes tieRay g) : g.t = 1 := by
  obtain ⟨i, p, h, hp, hh, rfl⟩ := hg
  have hmem := List.getElem?_mem hp
  simp only [tieShapes, List.mem_cons, List.mem_singleton, List.not_mem_nil, or_false] at hmem
  rcases hmem with rfl | rfl
  · rw [tie_hit_narrow] at hh
    cases hh
    rfl
  · rw [tie_hit_wide] at hh
    cases hh
    rfl

theorem tieRay_withFar : tieRay.withFar (currentFar tieRay none) = tieRay := rfl

theorem bruteForce_tie : bruteForce tieShapes tieRay = some ⟨0, 0, 3 / 2, 1 / 2, 1⟩ := by
  have h0 : tieShapes[0]? = some (xPlate 0 0 (3 / 2) (5 / 4) (7 / 4) 0 1) := rfl
  have s0 : testPrimitive tieShapes tieRay none 0 = some ⟨0, 0, 3 / 2, 1 / 2, 1⟩ := by
    simp only [testPrimitive, h0, tieRay_withFar, tie_hit_narrow]
    rfl
  have hgood : Good tieShapes tieRay (some ⟨0, 0, 3 / 2, 1 / 2, 1⟩) := by
    intro f hf
    cases hf
    exact ⟨0, _, _, h0, tie_hit_narrow, rfl⟩
  have hr : List.range tieShapes.length = [0, 1] := rfl
  rw [bruteForce, hr, List.foldl_cons, s0]
  exact foldl_stable _ _ (fun i => testPrimitive_stable tieShapes_lawful hgood
    (fun g hg => (tie_hits_at_one g hg).ge) i) _

theorem tie_build :
    Octree.build tieShapes 1 1 tieScene =
      OctreeNode.inner tieScene fun ux uy uz =>
        OctreeNode.leaf (tieScene.octant ux uy uz)
          ([0, 1].filter fun i =>
            match tieShapes[i]? with
            | some p => (tieScene.octant ux uy uz).overlap p.box
            | none => false) := rfl

theorem tie_leaf_low :
    ([0, 1].filter fun i =>
      match tieShapes[i]? with
      | some p => (tieScene.octant false false false).overlap p.box
      | none => false) = [] := by
  have h0 : tieShapes[0]? = some (xPlate 0 0 (3 / 2) (5 / 4) (7 / 4) 0 1) := rfl
  have h1 : tieShapes[1]? = some (xPlate 0 1 (3 / 2) 0 2 0 1) := rfl
  simp only [List.filter, h0, h1, AABB.overlap, AABB.octant, halfRange, tieScene, xPlate]
  norm_num

theorem tie_leaf_first :
    ([0, 1].filter fun i =>
      match tieShapes[i]? with
      | some p => (tieScene.octant true false false).overlap p.box
      | none => false) = [1] := by
  have h0 : tieShapes[0]? = some (xPlate 0 0 (3 / 2) (5 / 4) (7 / 4) 0 1) := rfl
  have h1 : tieShapes[1]? = some (xPlate 0 1 (3 / 2) 0 2 0 1) := rfl
  simp only [List.filter, h0, h1, AABB.overlap, AABB.octant, halfRange, tieScene, xPlate]
  norm_num

theorem tie_enter_first :
    (tieScene.octant true false false).rayIntersect (tieRay.withFar (currentFar tieRay none)) =
      true := by
  apply rayIntersect_sound (t := 0)
  · exact le_refl _
  · norm_num [tieRay, Ray.withFar, currentFar]
  · simp only [AABB.contains, AABB.octant, halfRange, tieScene, tieRay, Ray.withFar, Ray.pointAt,
      Point3f.addVec, Vector3f.scale]
    norm_num

theorem octree_tie :
    Octree.rayIntersect tieShapes fixedOrder (Octree.build tieShapes 1 1 tieScene) tieRay =
      some ⟨0, 1, 3 / 2, 1 / 2, 1⟩ := by
  have h1 : tieShapes[1]? = some (xPlate 0 1 (3 / 2) 0 2 0 1) := rfl
  have s1 : testPrimitive tieShapes tieRay none 1 = some ⟨0, 1, 3 / 2, 1 / 2, 1⟩ := by
    simp only [testPrimitive, h1, tieRay_withFar, tie_hit_wide]
    rfl
  have hgood : Good tieShapes tieRay (some ⟨0, 1, 3 / 2, 1 / 2, 1⟩) := by
    intro f hf
    cases hf
    exact ⟨1, _, _, h1, tie_hit_wide, rfl⟩
  obtain ⟨rest, hord⟩ : ∃ rest, fixedOrder tieRay tieScene =
      (false, false, false) :: (true, false, false) :: rest := ⟨_, rfl⟩
  rw [Octree.rayIntersect, tie_build]
  simp only [node_rayIntersect, hord, List.foldl_cons, tie_leaf_low, tie_leaf_first,
    OctreeNode.box, List.foldl_nil, ite_self, tie_enter_first, if_true, s1]
  apply foldl_stable
  intro k
  split
  · exact foldl_stable _ _ (fun i => testPrimitive_stable tieShapes_lawful hgood
      (fun g hg => (tie_hits_at_one g hg).ge) i) _
  · rfl

theorem tieShapes_in_scene :
    ∀ p ∈ tieShapes, ∀ q, p.box.contains q → tieScene.contains q := by
  intro p hp q hq
  simp only [tieShapes, List.mem_cons, List.mem_singleton, List.not_mem_nil, or_false] at hp
  rcases hp with rfl | rfl
  · obtain ⟨⟨x1, x2⟩, ⟨y1, y2⟩, ⟨z1, z2⟩⟩ := hq
    simp only [xPlate] at x1 x2 y1 y2 z1 z2
    simp only [AABB.contains, tieScene]
    refine ⟨⟨?_, ?_⟩, ⟨?_, ?_⟩, ⟨?_, ?_⟩⟩ <;> linarith
  · obtain ⟨⟨x1, x2⟩, ⟨y1, y2⟩, ⟨z1, z2⟩⟩ := hq
    simp only [xPlate] at x1 x2 y1 y2 z1 z2
    simp only [AABB.contains, tieScene]
    refine ⟨⟨?_, ?_⟩, ⟨?_, ?_⟩, ⟨?_, ?_⟩⟩ <;> linarith

theorem fixedOrder_complete (r : Ray) (b : AABB) (k : Bool × Bool × Bool) :
    k ∈ fixedOrder r b := by
  obtain ⟨ux, uy, uz⟩ := k
  cases ux <;> cases uy <;> cases uz <;> simp [fixedOrder]

theorem bruteForce_nearest {shapes : List Primitive} (ray : Ray)
    (hl : ∀ p ∈ shapes, p.Lawful) : Nearest shapes ray (bruteForce shapes ray) := by
  obtain ⟨i1, _, i3⟩ := scan_spec hl (List.range shapes.length) none (Good_none shapes ray)
  refine ⟨i1, ?_⟩
  rintro g ⟨i, p, h, hp, hh, rfl⟩
  have hi : i < shapes.length := (List.getElem?_eq_some_iff.mp hp).1
  exact i3 i (List.mem_range.mpr hi) p h hp hh

theorem octree_nearest {shapes : List Primitive} (ray : Ray)
    (order : Ray → AABB → List (Bool × Bool × Bool)) (leafMax depthBound : ℕ)
    (sceneAABB : AABB) (hl : ∀ p ∈ shapes, p.Lawful)
    (hscene : ∀ p ∈ shapes, ∀ q, p.box.contains q → sceneAABB.contains q)
    (horder : ∀ (r : Ray) (b : AABB) (k : Bool × Bool × Bool), k ∈ order r b) :
    Nearest shapes ray
      (Octree.rayIntersect shapes order (Octree.build shapes leafMax depthBound sceneAABB)
        ray) := by
  obtain ⟨i1, _, i3⟩ := @node_spec shapes ray hl order horder leafMax depthBound sceneAABB
    (List.range shapes.length) none (Good_none shapes ray)
  refine ⟨i1, ?_⟩
  rintro g ⟨i, p, h, hp, hh, rfl⟩
  have hi : i < shapes.length := (List.getElem?_eq_some_iff.mp hp).1
  have hmem := List.getElem?_mem hp
  exact i3 i (List.mem_range.mpr hi) p h hp hh
    (hscene p hmem _ ((hl p hmem).inBox ray h hh))

theorem nearest_agree {shapes : List Primitive} {ray : Ray} {o b : Option Found}
    (ho : Nearest shapes ray o) (hb : Nearest shapes ray b) :
    (o.isSome ↔ b.isSome) ∧
      ∀ fo fb, o = some fo → b = some fb →
        fo.t = fb.t ∧ ((∀ g, IsHit shapes ray g → g.t = fb.t → g = fb) → fo = fb) := by
  constructor
  · constructor
    · intro h
      obtain ⟨fo, hfo⟩ := Option.isSome_iff_exists.mp h
      obtain ⟨f, hf, _⟩ := hb.2 fo (ho.1 fo hfo)
      rw [hf]
      rfl
    · intro h
      obtain ⟨fb, hfb⟩ := Option.isSome_iff_exists.mp h
      obtain ⟨f, hf, _⟩ := ho.2 fb (hb.1 fb hfb)
      rw [hf]
      rfl
  · intro fo fb hfo hfb
    obtain ⟨f1, hf1, h1⟩ := hb.2 fo (ho.1 fo hfo)
    obtain ⟨f2, hf2, h2⟩ := ho.2 fb (hb.1 fb hfb)
    rw [hfb] at hf1
    rw [hfo] at hf2
    cases hf1
    cases hf2
    have ht : fo.t = fb.t := le_antisymm h2 h1
    exact ⟨ht, fun huniq => huniq fo (ho.1 fo hfo) ht⟩

/-- C15, as stated, fails on the model of the octree: for two coplanar rectangles that the ray
meets at the same distance, with leaf threshold 1, the octree reports the wide rectangle
(`primID = 1`), which it meets in the first leaf it enters, while the brute-force scan reports the
narrow one (`primID = 0`), which comes first in the primitive order. Both primitives keep the
contract of a ray test and lie in the scene box. -/
theorem Octree_tie_differs_from_bruteForce :
    (∀ p ∈ tieShapes, p.Lawful) ∧
      (∀ p ∈ tieShapes, ∀ q, p.box.contains q → tieScene.contains q) ∧
      Octree.rayIntersect tieShapes fixedOrder (Octree.build tieShapes 1 1 tieScene) tieRay =
        some ⟨0, 1, 3 / 2, 1 / 2, 1⟩ ∧
      bruteForce tieShapes tieRay = some ⟨0, 0, 3 / 2, 1 / 2, 1⟩ ∧
      Octree.rayIntersect tieShapes fixedOrder (Octree.build tieShapes 1 1 tieScene) tieRay ≠
        bruteForce tieShapes tieRay := by
  refine ⟨tieShapes_lawful, tieShapes_in_scene, octree_tie, bruteForce_tie, ?_⟩
  rw [octree_tie, bruteForce_tie]
  intro h
  have h2 := congrArg Found.primID (Option.some.inj h)
  exact absurd h2 (by decide)

/-- C15, amended: for primitives that keep the contract of a ray test and lie in the scene box,
any primitive order, any leaf-size threshold, any depth bound and any visiting order that lists
every octant, `Octree.rayIntersect` reports a hit exactly when the brute-force scan does; both
report a hit of the scene at the same, nearest distance; and they report the same
`(geomID, primID, u, v)` whenever only one hit of the scene has that distance. -/
theorem Octree_rayIntersect_matches_bruteForce (shapes : List Primitive) (ray : Ray)
    (order : Ray → AABB → List (Bool × Bool × Bool)) (leafMax depthBound : ℕ)
    (sceneAABB : AABB) (hl : ∀ p ∈ shapes, p.Lawful)
    (hscene : ∀ p ∈ shapes, ∀ q, p.box.contains q → sceneAABB.contains q)
    (horder : ∀ (r : Ray) (b : AABB) (k : Bool × Bool × Bool), k ∈ order r b) :
    ((Octree.rayIntersect shapes order (Octree.build shapes leafMax depthBound sceneAABB)
        ray).isSome ↔ (bruteForce shapes ray).isSome) ∧
      (∀ fo fb,
        Octree.rayIntersect shapes order (Octree.build shapes leafMax depthBound sceneAABB)
          ray = some fo →
        bruteForce shapes ray = some fb →
        fo.t = fb.t ∧ ((∀ g, IsHit shapes ray g → g.t = fb.t → g = fb) → fo = fb)) ∧
      (∀ fo,
        Octree.rayIntersect shapes order (Octree.build shapes leafMax depthBound sceneAABB)
          ray = some fo →
        IsHit shapes ray fo ∧ ∀ g, IsHit shapes ray g → fo.t ≤ g.t) := by
  have ho := octree_nearest ray order leafMax depthBound sceneAABB hl hscene horder
  have hb := bruteForce_nearest ray hl
  obtain ⟨h1, h2⟩ := nearest_agree ho hb
  refine ⟨h1, h2, ?_⟩
  intro fo hfo
  refine ⟨ho.1 fo hfo, fun g hg => ?_⟩
  obtain ⟨f, hf, hle⟩ := ho.2 g hg
  rw [hfo] at hf
  cases hf
  exact hle

/-- Witness for `Octree_rayIntersect_matches_bruteForce` on the scene of the two coplanar
rectangles: both scans report a hit, at distance 1. -/
theorem Octree_rayIntersect_matches_bruteForce_witness :
    ((Octree.rayIntersect tieShapes fixedOrder (Octree.build tieShapes 1 1 tieScene)
        tieRay).isSome ↔ (bruteForce tieShapes tieRay).isSome) ∧
      (∀ fo fb,
        Octree.rayIntersect tieShapes fixedOrder (Octree.build tieShapes 1 1 tieScene)
          tieRay = some fo →
        bruteForce tieShapes tieRay = some fb →
        fo.t = fb.t ∧ ((∀ g, IsHit tieShapes tieRay g → g.t = fb.t → g = fb) → fo = fb)) ∧
      (∀ fo,
        Octree.rayIntersect tieShapes fixedOrder (Octree.build tieShapes 1 1 tieScene)
          tieRay = some fo →
        IsHit tieShapes tieRay fo ∧ ∀ g, IsHit tieShapes tieRay g → fo.t ≤ g.t) :=
  Octree_rayIntersect_matches_bruteForce tieShapes tieRay fixedOrder 1 1 tieScene
    tieShapes_lawful tieShapes_in_scene fixedOrder_complete

/-! ## Binary32 rounding: evaluation -/

theorem F32.roundHalfEven_near {q : ℚ} {n : ℤ} (h1 : (n : ℚ) - 1 / 2 < q)
    (h2 : q < (n : ℚ) + 1 / 2) : F32.roundHalfEven q = n := by
  unfold F32.roundHalfEven
  by_cases hq : (n : ℚ) ≤ q
  · have hf : ⌊q⌋ = n := by
      rw [Int.floor_eq_iff]
      exact ⟨hq, by linarith⟩
    rw [hf, if_pos (by linarith)]
  · have hq2 := not_le.mp hq
    have hf : ⌊q⌋ = n - 1 := by
      rw [Int.floor_eq_iff]
      push_cast
      exact ⟨by linarith, by linarith⟩
    rw [hf]
    push_cast
    rw [if_neg (by linarith), if_pos (by linarith)]
    ring

theorem F32.roundHalfEven_tie_down {q : ℚ} {n : ℤ} (h : q = (n : ℚ) + 1 / 2) (he : n % 2 = 0) :
    F32.roundHalfEven q = n := by
  unfold F32.roundHalfEven
  have hf : ⌊q⌋ = n := by
    rw [Int.floor_eq_iff]
    exact ⟨by linarith, by linarith⟩
  rw [hf, if_neg (by linarith), if_neg (by linarith), if_pos he]

theorem F32.log_eq {x : ℚ} {e : ℤ} (h1 : (2 : ℚ) ^ e ≤ |x|) (h2 : |x| < (2 : ℚ) ^ (e + 1)) :
    Int.log 2 |x| = e := by
  have hpos : 0 < |x| := lt_of_lt_of_le (by positivity) h1
  have a : e ≤ Int.log 2 |x| := (Int.zpow_le_iff_le_log (by norm_num) hpos).mp (by exact_mod_cast h1)
  have b : Int.log 2 |x| < e + 1 :=
    (Int.lt_zpow_iff_log_lt (by norm_num) hpos).mp (by exact_mod_cast h2)
  omega

/-- Evaluation of `F32.round` in the normal range: for `2^e ≤ |x| < 2^(e+1)` the result is the
nearest multiple `n · 2^(e-23)`. -/
theorem F32.round_eq {x : ℚ} (e n : ℤ) (he : -126 ≤ e) (h1 : (2 : ℚ) ^ e ≤ |x|)
    (h2 : |x| < (2 : ℚ) ^ (e + 1))
    (hn : F32.roundHalfEven (x / (2 : ℚ) ^ (e - 23)) = n) :
    F32.round x = (n : ℚ) * (2 : ℚ) ^ (e - 23) := by
  have hx : x ≠ 0 := by
    intro h0
    rw [h0, abs_zero] at h1
    exact absurd h1 (not_le.mpr (by positivity))
  have hu : F32.ulpExp x = e - 23 := by
    unfold F32.ulpExp
    rw [F32.log_eq h1 h2, max_eq_left he]
  unfold F32.round
  rw [if_neg hx, hu, hn]

/-- Evaluation of `F32.round` at a value that is not a tie: `y = n · 2^(e-23)` is the binary32
value nearest to `x`. -/
theorem F32.round_val (x : ℚ) (e n : ℤ) (y : ℚ) (he : -126 ≤ e) (h1 : (2 : ℚ) ^ e ≤ |x|)
    (h2 : |x| < (2 : ℚ) ^ (e + 1)) (hlo : (n : ℚ) - 1 / 2 < x / (2 : ℚ) ^ (e - 23))
    (hhi : x / (2 : ℚ) ^ (e - 23) < (n : ℚ) + 1 / 2) (hy : (n : ℚ) * (2 : ℚ) ^ (e - 23) = y) :
    F32.round x = y := by
  rw [F32.round_eq e n he h1 h2 (F32.roundHalfEven_near hlo hhi), hy]

theorem F32.round_tie_down (x : ℚ) (e n : ℤ) (y : ℚ) (he : -126 ≤ e) (h1 : (2 : ℚ) ^ e ≤ |x|)
    (h2 : |x| < (2 : ℚ) ^ (e + 1)) (ht : x / (2 : ℚ) ^ (e - 23) = (n : ℚ) + 1 / 2)
    (hev : n % 2 = 0) (hy : (n : ℚ) * (2 : ℚ) ^ (e - 23) = y) : F32.round x = y := by
  rw [F32.round_eq e n he h1 h2 (F32.roundHalfEven_tie_down ht hev), hy]

theorem F32.round_p1_3 : F32.round (1 / 3) = 11184811 / 33554432 :=
  F32.round_val _ (-2) (11184811) _ (by norm_num) (by norm_num [abs_of_pos])
    (by norm_num [abs_of_pos]) (by norm_num) (by norm_num) (by norm_num)

theorem F32.round_p1_10 : F32.round (1 / 10) = 13421773 / 134217728 :=
  F32.round_val _ (-4) (13421773) _ (by norm_num) (by norm_num [abs_of_pos])
    (by norm_num [abs_of_pos]) (by norm_num) (by norm_num) (by norm_num)

theorem F32.round_p1_5 : F32.round (1 / 5) = 13421773 / 67108864 :=
  F32.round_val _ (-3) (13421773) _ (by norm_num) (by norm_num [abs_of_pos])
    (by norm_num [abs_of_pos]) (by norm_num) (by norm_num) (by norm_num)

theorem F32.round_p3_10 : F32.round (3 / 10) = 5033165 / 16777216 :=
  F32.round_val _ (-2) (10066330) _ (by norm_num) (by norm_num [abs_of_pos])
    (by norm_num [abs_of_pos]) (by norm_num) (by norm_num) (by norm_num)

theorem triLearpR_id (m : GridDensityMedium) (pGrid : Point3f) :
    triLearpR id m pGrid = triLearp m pGrid := rfl

theorem DensityR_id (m : GridDensityMedium) (eps : ℚ) (p : Point3f) :
    DensityR id m eps p = Density m eps p := rfl

theorem toLocalOriginDirR_id (oldOrig : Point3f) (oldDir : Vector3f) (transform : Transform) :
    toLocalOriginDirR id oldOrig oldDir transform = toLocalOriginDir oldOrig oldDir transform :=
  rfl

theorem TrLoopR_id (m : GridDensityMedium) (eps : ℚ) (flog : ℚ → ℚ) (tMax : ℚ)
    (sampler : ℕ → ℚ) (localOrigin : Point3f) (localDir : Vector3f) (fuel : ℕ) :
    ∀ (tr t : ℚ) (i : ℕ),
      TrLoopR id m eps flog tMax sampler localOrigin localDir fuel tr t i =
        TrLoop m eps flog tMax sampler localOrigin localDir fuel tr t i := by
  induction fuel with
  | zero => intro tr t i; rfl
  | succ n ih =>
    intro tr t i
    simp only [TrLoopR, TrLoop, id]
    split
    · rfl
    · exact ih _ _ _

theorem TrR_id (m : GridDensityMedium) (eps : ℚ) (flog : ℚ → ℚ) (initOrigin : Point3f)
    (initDir : Vector3f) (p : Point3f) (w : Vector3f) (tMax : ℚ) (sampler : ℕ → ℚ)
    (fuel : ℕ) :
    TrR id m eps flog initOrigin initDir p w tMax sampler fuel =
      Tr m eps flog initOrigin initDir p w tMax sampler fuel := by
  simp only [TrR, Tr, toLocalOriginDirR_id, TrLoopR_id]

/-! ## Binary32 runs -/

end GridDensity
